import Mathlib

/-!
Verification model of the incremental ETL engine in `src/etl/incremental.py`
(class `IncrementalETL`).

Modelling conventions (shallow embedding):
* Timestamps are integers (seconds since the epoch); `DATE(ts)` is modelled
  by flooring division by 86400 (`dayOf`).
* Python/SQL floats are modelled by `ℚ`; `NULL` / missing values (`None`,
  `NaN`, `NaT`) by `Option`.
* A Python dict record coming from JSON, where `row.get(field)` may return a
  missing value, is modelled by a structure whose fields are `Option`s.
* Database tables are association lists; `ON CONFLICT ... DO NOTHING` is
  `insertOrIgnore`, `ON CONFLICT ... DO UPDATE` is `upsertBy` on the
  conflict-target key.
* `append_raw_to_db` runs inside a single transaction committed at the end,
  so a database error while inserting one record aborts the whole call with
  nothing stored; this is modelled by `Except String`.  Two error paths
  exist: a missing natural id (NULL or NaN in the primary-key column), and
  an unguarded field that `pandas` filled with the float `NaN` because the
  record lacks it while another record of the same batch carries it —
  `row.get` passes that `NaN` into a column that rejects it.  A field
  absent from every record of the batch has no column at all, `row.get`
  yields `None`, and NULL is stored.  An `Option` field being `none` models
  the key being absent from the record.
* `pandas` reductions skip missing values: `.mean()` / `.quantile()` over
  only the non-null entries (yielding `none` when there are none),
  `.sum()` over the non-null entries with `0` for the empty case,
  `.max()` over the non-null entries.
-/

deriving instance DecidableEq for Except

namespace PipelineInsights

/-- Maximum of a list of integers, `none` for the empty list.  Models the
pandas `.max()` reduction (applied after dropping nulls via `filterMap`). -/
def listMax : List Int → Option Int
  | [] => none
  | t :: ts =>
    match listMax ts with
    | none => some t
    | some m => some (max t m)

theorem listMax_mem : ∀ {l : List Int} {m : Int}, listMax l = some m → m ∈ l := by
  intro l
  induction l with
  | nil => intro m h; simp [listMax] at h
  | cons t ts ih =>
    intro m h
    simp only [listMax] at h
    cases hts : listMax ts with
    | none => rw [hts] at h; simp at h; simp [h]
    | some m' =>
      rw [hts] at h
      simp at h
      rcases max_cases t m' with ⟨he, _⟩ | ⟨he, _⟩
      · rw [← h, he]; simp
      · rw [← h, he]; right; exact ih hts

/-- Day number of an integer timestamp (seconds): models SQL `DATE(created_at)`
  and `datetime.date`, i.e. flooring division by 86400. -/
def dayOf (t : Int) : Int := Int.ediv t 86400

theorem dayOf_bounds (t d : Int) :
    dayOf t = d ↔ 86400 * d ≤ t ∧ t < 86400 * (d + 1) := by
  have h0 : t = 86400 * Int.ediv t 86400 + Int.emod t 86400 :=
    (Int.ediv_add_emod t 86400).symm
  have h1 : 0 ≤ Int.emod t 86400 := Int.emod_nonneg t (by norm_num)
  have h2 : Int.emod t 86400 < 86400 := Int.emod_lt_of_pos t (by norm_num)
  unfold dayOf
  constructor
  · intro h; omega
  · intro h; omega

/-- Arithmetic mean of a list of rationals, `none` for the empty list.
  Models pandas `.mean()` after the nulls have been dropped. -/
def meanOpt (l : List ℚ) : Option ℚ :=
  if l = [] then none else some (l.sum / l.length)

/-- Stable insertion into a list sorted in ascending order. -/
def insertSorted (x : ℚ) : List ℚ → List ℚ
  | [] => [x]
  | y :: ys => if x ≤ y then x :: y :: ys else y :: insertSorted x ys

/-- Ascending insertion sort, used by the quantile computation. -/
def sortQ (l : List ℚ) : List ℚ := l.foldr insertSorted []

/-- Linear-interpolation quantile of a list of rationals (`none` when the
  list is empty): models `pandas.Series.quantile(q)` with the default
  `interpolation='linear'`, applied after nulls are dropped. -/
def quantileQ (q : ℚ) (l : List ℚ) : Option ℚ :=
  let xs := sortQ l
  if xs = [] then none
  else
    let n := xs.length
    let h : ℚ := q * ((n : ℚ) - 1)
    let i : Nat := (⌊h⌋).toNat
    let lo := xs.getD i 0
    let hi := xs.getD (min (i + 1) (n - 1)) 0
    some (lo + (h - (⌊h⌋ : ℚ)) * (hi - lo))

/-- Stable descending-by-count insertion used to model
  `Series.value_counts()` ordering. -/
def insertByCount (p : String × Nat) : List (String × Nat) → List (String × Nat)
  | [] => [p]
  | q :: qs => if q.2 < p.2 then p :: q :: qs else q :: insertByCount p qs

/-- Top-5 failure-reason histogram: models
  `x[x.notna()].value_counts().head(5).to_dict()` (counts of each distinct
  value, sorted by decreasing count, first five kept). -/
def valueCounts (l : List String) : List (String × Nat) :=
  (((l.dedup).map (fun s => (s, (l.filter (fun x => x = s)).length))).foldr
      insertByCount []).take 5

end PipelineInsights

namespace PipelineInsights

/-! ### Raw events and the raw append stores

`load_new_raw` reads staged JSON events; `append_raw_to_db` inserts them into
`pipelines_raw` / `jobs_raw` with `ON CONFLICT (id) DO NOTHING` and a single
commit at the end of the call. -/

/-- A staged raw pipeline event as read from `pipelines.json`; every field is
  optional because `row.get(...)` on a JSON record may find nothing. -/
structure PipelineEvent where
  id : Option Int
  status : Option String
  ref : Option String
  sha : Option String
  web_url : Option String
  created_at : Option Int
  updated_at : Option Int
  finished_at : Option Int
deriving DecidableEq

/-- A staged raw job event as read from `jobs_*.json`. -/
structure RawJobEvent where
  id : Option Int
  pipeline_id : Option Int
  name : Option String
  stage : Option String
  status : Option String
  duration : Option ℚ
  queued_duration : Option ℚ
  failure_reason : Option String
  retry : Option Int
  web_url : Option String
  created_at : Option Int
  started_at : Option Int
  finished_at : Option Int
deriving DecidableEq

/-- A row of the `pipelines_raw` table (the natural id is the primary key,
  hence non-null). -/
structure PipelineRow where
  id : Int
  project_id : Int
  status : Option String
  ref : Option String
  sha : Option String
  web_url : Option String
  created_at : Option Int
  updated_at : Option Int
  finished_at : Option Int
deriving DecidableEq

/-- A row of the `jobs_raw` table. -/
structure JobRow where
  id : Int
  pipeline_id : Option Int
  project_id : Int
  name : Option String
  stage : Option String
  status : Option String
  duration : Option ℚ
  queued_duration : Option ℚ
  failure_reason : Option String
  retry_count : Int
  web_url : Option String
  created_at : Option Int
  started_at : Option Int
  finished_at : Option Int
deriving DecidableEq

/-- Does some record of the batch carry the field?  Models whether
  `pd.DataFrame(records)` has that column: when at least one record has the
  key, the column exists and records missing it hold the float `NaN`; when
  no record has it, there is no column and `row.get` yields `None` (bound
  as SQL NULL). -/
def hasCol {β γ : Type} (batch : List β) (f : β → Option γ) : Bool :=
  batch.any (fun e => (f e).isSome)

/-- Is one of the unguarded `pipelines_raw` columns (`status`, `ref`,
  `sha`, `web_url` reach the INSERT without a `pd.notna` guard) missing on
  this record while present elsewhere in the batch?  Such a value is the
  float `NaN`, and inserting `NaN` into a varchar column raises. -/
def pipeRowNaN (batch : List PipelineEvent) (e : PipelineEvent) : Bool :=
  (e.status.isNone && hasCol batch PipelineEvent.status) ||
  (e.ref.isNone && hasCol batch PipelineEvent.ref) ||
  (e.sha.isNone && hasCol batch PipelineEvent.sha) ||
  (e.web_url.isNone && hasCol batch PipelineEvent.web_url)

/-- Column values of `INSERT INTO pipelines_raw`, relative to the batch the
  DataFrame was built from.  An error models the INSERT raising: either the
  natural id is missing (NULL, or NaN, in the primary-key column) or an
  unguarded column holds `NaN` (`pipeRowNaN`).  The timestamp columns go
  through `pd.notna`, so a missing value there is bound as NULL. -/
def pipelineRowOfEvent (pid : Int) (batch : List PipelineEvent)
    (e : PipelineEvent) : Except String PipelineRow :=
  match e.id with
  | none => Except.error "null value in column id violates not-null constraint"
  | some i =>
    if pipeRowNaN batch e then
      Except.error "NaN from a missing field cannot be inserted into this column"
    else
      Except.ok { id := i, project_id := pid, status := e.status, ref := e.ref,
                  sha := e.sha, web_url := e.web_url, created_at := e.created_at,
                  updated_at := e.updated_at, finished_at := e.finished_at }

/-- Is one of the unguarded `jobs_raw` columns (`pipeline_id`, `name`,
  `stage`, `status`, `failure_reason`, `web_url` reach the INSERT without a
  `pd.notna` guard) missing on this record while present elsewhere in the
  batch?  The varchar columns reject the float `NaN` outright, and `NaN`
  cast to the bigint `pipeline_id` is out of range, so the INSERT raises. -/
def jobRowNaN (batch : List RawJobEvent) (e : RawJobEvent) : Bool :=
  (e.pipeline_id.isNone && hasCol batch RawJobEvent.pipeline_id) ||
  (e.name.isNone && hasCol batch RawJobEvent.name) ||
  (e.stage.isNone && hasCol batch RawJobEvent.stage) ||
  (e.status.isNone && hasCol batch RawJobEvent.status) ||
  (e.failure_reason.isNone && hasCol batch RawJobEvent.failure_reason) ||
  (e.web_url.isNone && hasCol batch RawJobEvent.web_url)

/-- Column values of `INSERT INTO jobs_raw`, relative to the batch; error
  paths as for `pipelineRowOfEvent`.  `duration`, `queued_duration`,
  `retry` and the timestamps are `pd.notna`-guarded (`retry_count`
  defaults to 0), so missing values there are bound as NULL / 0. -/
def jobRowOfEvent (pid : Int) (batch : List RawJobEvent) (e : RawJobEvent) :
    Except String JobRow :=
  match e.id with
  | none => Except.error "null value in column id violates not-null constraint"
  | some i =>
    if jobRowNaN batch e then
      Except.error "NaN from a missing field cannot be inserted into this column"
    else
      Except.ok { id := i, pipeline_id := e.pipeline_id, project_id := pid,
                  name := e.name, stage := e.stage, status := e.status,
                  duration := e.duration, queued_duration := e.queued_duration,
                  failure_reason := e.failure_reason,
                  retry_count := e.retry.getD 0, web_url := e.web_url,
                  created_at := e.created_at, started_at := e.started_at,
                  finished_at := e.finished_at }

/-- One `INSERT ... ON CONFLICT (id) DO NOTHING`: a row whose natural id is
  already present leaves the store untouched (never an overwrite). -/
def insertOrIgnore {α : Type} (key : α → Int) (store : List α) (r : α) : List α :=
  if key r ∈ store.map key then store else store ++ [r]

/-- The per-record loop of `append_raw_to_db` over one batch: each record is
  converted to its column values and inserted with insert-or-ignore; a
  record whose conversion raises (missing natural id, or NaN in an
  unguarded column) aborts the transaction, so that nothing of the call is
  committed. -/
def appendGo {α β : Type} (toRow : β → Except String α) (key : α → Int) :
    List α → List β → Except String (List α)
  | store, [] => Except.ok store
  | store, e :: rest =>
    match toRow e with
    | Except.error msg => Except.error msg
    | Except.ok r => appendGo toRow key (insertOrIgnore key store r) rest

/-- `append_raw_to_db('pipelines', df)`; the row conversion is relative to
  the whole batch because the DataFrame's columns are. -/
def appendRawPipelines (pid : Int) (store : List PipelineRow)
    (batch : List PipelineEvent) : Except String (List PipelineRow) :=
  appendGo (pipelineRowOfEvent pid batch) PipelineRow.id store batch

/-- `append_raw_to_db('jobs', df)`. -/
def appendRawJobs (pid : Int) (store : List JobRow)
    (batch : List RawJobEvent) : Except String (List JobRow) :=
  appendGo (jobRowOfEvent pid batch) JobRow.id store batch

theorem insertOrIgnore_of_mem {α : Type} (key : α → Int) (store : List α) (r : α)
    (h : key r ∈ store.map key) : insertOrIgnore key store r = store := by
  simp [insertOrIgnore, h]

theorem mem_map_insertOrIgnore {α : Type} (key : α → Int) (store : List α) (r : α) :
    key r ∈ (insertOrIgnore key store r).map key := by
  unfold insertOrIgnore
  by_cases h : key r ∈ store.map key
  · simp [h]
  · simp [h]

theorem mem_map_insertOrIgnore_mono {α : Type} (key : α → Int) (store : List α)
    (r : α) {k : Int} (h : k ∈ store.map key) :
    k ∈ (insertOrIgnore key store r).map key := by
  unfold insertOrIgnore
  by_cases hm : key r ∈ store.map key
  · rw [if_pos hm]; exact h
  · rw [if_neg hm, List.map_append]
    exact List.mem_append_left _ h

theorem appendGo_key_mono {α β : Type} (toRow : β → Except String α) (key : α → Int) :
    ∀ (batch : List β) (store store' : List α),
      appendGo toRow key store batch = Except.ok store' →
      ∀ k, k ∈ store.map key → k ∈ store'.map key := by
  intro batch
  induction batch with
  | nil =>
    intro store store' h k hk
    simp [appendGo] at h
    rwa [← h]
  | cons e rest ih =>
    intro store store' h k hk
    simp only [appendGo] at h
    cases hto : toRow e with
    | error msg => rw [hto] at h; simp at h
    | ok r =>
      rw [hto] at h
      exact ih _ _ h k (mem_map_insertOrIgnore_mono key store r hk)

theorem appendGo_key_covers {α β : Type} (toRow : β → Except String α) (key : α → Int) :
    ∀ (batch : List β) (store store' : List α),
      appendGo toRow key store batch = Except.ok store' →
      ∀ e ∈ batch, ∀ r, toRow e = Except.ok r → key r ∈ store'.map key := by
  intro batch
  induction batch with
  | nil => intro store store' _ e he; simp at he
  | cons e0 rest ih =>
    intro store store' h e he r hr
    simp only [appendGo] at h
    cases hto : toRow e0 with
    | error msg => rw [hto] at h; simp at h
    | ok r0 =>
      rw [hto] at h
      rcases List.mem_cons.mp he with he0 | hrest
      · subst he0
        rw [hto] at hr
        cases hr
        exact appendGo_key_mono toRow key rest _ _ h _
          (mem_map_insertOrIgnore key store r)
      · exact ih _ _ h e hrest r hr

theorem appendGo_toRow_ok {α β : Type} (toRow : β → Except String α) (key : α → Int) :
    ∀ (batch : List β) (store store' : List α),
      appendGo toRow key store batch = Except.ok store' →
      ∀ e ∈ batch, ∃ r, toRow e = Except.ok r := by
  intro batch
  induction batch with
  | nil => intro store store' _ e he; simp at he
  | cons e0 rest ih =>
    intro store store' h e he
    simp only [appendGo] at h
    cases hto : toRow e0 with
    | error msg => rw [hto] at h; simp at h
    | ok r0 =>
      rw [hto] at h
      rcases List.mem_cons.mp he with he0 | hrest
      · exact he0 ▸ ⟨r0, hto⟩
      · exact ih _ _ h e hrest

theorem appendGo_replay {α β : Type} (toRow : β → Except String α) (key : α → Int) :
    ∀ (batch : List β) (store : List α),
      (∀ e ∈ batch, ∃ r, toRow e = Except.ok r ∧ key r ∈ store.map key) →
      appendGo toRow key store batch = Except.ok store := by
  intro batch
  induction batch with
  | nil => intro store _; simp [appendGo]
  | cons e0 rest ih =>
    intro store hall
    rcases hall e0 (by simp) with ⟨r0, hto, hk⟩
    simp only [appendGo]
    rw [hto]
    show appendGo toRow key (insertOrIgnore key store r0) rest = Except.ok store
    rw [insertOrIgnore_of_mem key store r0 hk]
    exact ih store (fun e he => hall e (List.mem_cons_of_mem _ he))

/-- Replaying an already-ingested batch is a no-op on the raw store. -/
theorem appendGo_idem {α β : Type} (toRow : β → Except String α) (key : α → Int)
    (batch : List β) (store store' : List α)
    (h : appendGo toRow key store batch = Except.ok store') :
    appendGo toRow key store' batch = Except.ok store' := by
  have hcov := appendGo_key_covers toRow key batch store store' h
  have hok := appendGo_toRow_ok toRow key batch store store' h
  refine appendGo_replay toRow key batch store' (fun e he => ?_)
  rcases hok e he with ⟨r, hr⟩
  exact ⟨r, hr, hcov e he r hr⟩

end PipelineInsights

namespace PipelineInsights

/-! ### Daily metrics (`compute_metrics_daily`)

The SQL step selects the jobs of the window; the pandas step groups them by
`(project_id, job_name, day)` and aggregates; the result is upserted into
`metrics_daily` with `ON CONFLICT (project_id, job_name, day) DO UPDATE`. -/

/-- A row of the `metrics_daily` table. -/
structure DailyMetric where
  project_id : Int
  job_name : String
  day : Int
  builds : Nat
  fails : Nat
  p95_duration : Option ℚ
  p99_duration : Option ℚ
  avg_duration : Option ℚ
  total_duration : ℚ
  max_retries : Int
  error_types : List (String × Nat)
deriving DecidableEq

/-- SQL `WHERE` clause of the raw-jobs query in `compute_metrics_daily`:
  for `window_days = 0` it keeps `created_at <= today + INTERVAL '1 day'`,
  otherwise `created_at >= start_date AND created_at < today + INTERVAL
  '1 day'` with `start_date = today - window_days` (dates coerce to their
  midnight timestamp).  A `NULL` timestamp satisfies neither comparison. -/
def metricsWindowPred (pid : Int) (w : Int) (today : Int) (r : JobRow) : Bool :=
  decide (r.project_id = pid) &&
    match r.created_at with
    | none => false
    | some t =>
      if w = 0 then decide (t ≤ 86400 * (today + 1))
      else decide (86400 * (today - w) ≤ t) && decide (t < 86400 * (today + 1))

/-- The pandas groupby key `(project_id, job_name, day)` of a fetched row;
  `none` models groupby's dropping of rows with a missing key component
  (its default `dropna=True`). -/
def groupKey (r : JobRow) : Option (Int × String × Int) :=
  match r.name, r.created_at with
  | some n, some t => some (r.project_id, n, dayOf t)
  | _, _ => none

/-- Aggregation of one `(project_id, job_name, day)` group, mirroring the
  `.agg` dictionary: builds counts success+failed statuses, fails counts
  failed ones, the duration reductions skip nulls, `max_retries` is the max
  retry count and `error_types` the top-5 failure-reason histogram. -/
def aggregateGroup (k : Int × String × Int) (g : List JobRow) : DailyMetric :=
  let durs := g.filterMap JobRow.duration
  { project_id := k.1
    job_name := k.2.1
    day := k.2.2
    builds := (g.filter (fun r => r.status = some "success")).length
              + (g.filter (fun r => r.status = some "failed")).length
    fails := (g.filter (fun r => r.status = some "failed")).length
    p95_duration := quantileQ (19 / 20) durs
    p99_duration := quantileQ (99 / 100) durs
    avg_duration := meanOpt durs
    total_duration := durs.sum
    max_retries := (listMax (g.map JobRow.retry_count)).getD 0
    error_types := valueCounts (g.filterMap JobRow.failure_reason) }

/-- The aggregated `metrics` frame of `compute_metrics_daily`: one
  `DailyMetric` per distinct group key among the rows of the window. -/
def computeMetricsGroups (pid : Int) (w : Int) (today : Int)
    (raw : List JobRow) : List DailyMetric :=
  let rows := raw.filter (metricsWindowPred pid w today)
  let keys := (rows.filterMap groupKey).dedup
  keys.map (fun k => aggregateGroup k (rows.filter (fun r => groupKey r = some k)))

/-- Natural key of a `metrics_daily` row (the upsert's conflict target). -/
def mkey (m : DailyMetric) : Int × String × Int := (m.project_id, m.job_name, m.day)

/-- Generic keyed upsert, modelling `INSERT ... ON CONFLICT (key) DO UPDATE`:
  if the key is present every row carrying it is overwritten with the new
  values, otherwise the row is appended. -/
def upsertBy {α κ : Type} [DecidableEq κ] (key : α → κ) (store : List α) (x : α) :
    List α :=
  if key x ∈ store.map key then store.map (fun y => if key y = key x then x else y)
  else store ++ [x]

/-- `compute_metrics_daily`: aggregate the window, then upsert every group
  row into the `metrics_daily` store. -/
def computeMetricsDaily (pid : Int) (w : Int) (today : Int)
    (raw : List JobRow) (store : List DailyMetric) : List DailyMetric :=
  (computeMetricsGroups pid w today raw).foldl (upsertBy mkey) store

theorem mem_upsertBy_key_iff {α κ : Type} [DecidableEq κ] (key : α → κ)
    (store : List α) (x y : α) (hk : key y ≠ key x) :
    y ∈ upsertBy key store x ↔ y ∈ store := by
  unfold upsertBy
  by_cases hm : key x ∈ store.map key
  · rw [if_pos hm]
    constructor
    · intro hy
      rcases List.mem_map.mp hy with ⟨z, hz, hzy⟩
      by_cases hzx : key z = key x
      · rw [if_pos hzx] at hzy
        exact absurd (hzy ▸ rfl : key y = key x) hk
      · rw [if_neg hzx] at hzy
        exact hzy ▸ hz
    · intro hy
      refine List.mem_map.mpr ⟨y, hy, ?_⟩
      rw [if_neg hk]
  · rw [if_neg hm, List.mem_append]
    constructor
    · intro hy
      rcases hy with hy | hy
      · exact hy
      · simp at hy
        exact absurd (hy ▸ rfl : key y = key x) hk
    · exact fun hy => Or.inl hy

theorem mem_upsertBy_key_eq {α κ : Type} [DecidableEq κ] (key : α → κ)
    (store : List α) (x y : α) (hy : y ∈ upsertBy key store x)
    (hk : key y = key x) : y = x := by
  unfold upsertBy at hy
  by_cases hm : key x ∈ store.map key
  · rw [if_pos hm] at hy
    rcases List.mem_map.mp hy with ⟨z, hz, hzy⟩
    by_cases hzx : key z = key x
    · rw [if_pos hzx] at hzy; exact hzy.symm
    · rw [if_neg hzx] at hzy
      exact absurd (hzy ▸ hk) hzx
  · rw [if_neg hm, List.mem_append] at hy
    rcases hy with hy | hy
    · exact absurd (List.mem_map.mpr ⟨y, hy, hk⟩) (hk ▸ hm)
    · simpa using hy

theorem exists_mem_upsertBy {α κ : Type} [DecidableEq κ] (key : α → κ)
    (store : List α) (x : α) : x ∈ upsertBy key store x := by
  unfold upsertBy
  by_cases hm : key x ∈ store.map key
  · rw [if_pos hm]
    rcases List.mem_map.mp hm with ⟨z, hz, hzx⟩
    refine List.mem_map.mpr ⟨z, hz, ?_⟩
    rw [if_pos hzx]
  · rw [if_neg hm]
    simp

theorem foldl_upsertBy_untouched {α κ : Type} [DecidableEq κ] (key : α → κ) :
    ∀ (xs : List α) (store : List α) (y : α),
      key y ∉ xs.map key →
      (y ∈ xs.foldl (upsertBy key) store ↔ y ∈ store) := by
  intro xs
  induction xs with
  | nil => intro store y _; simp
  | cons x0 rest ih =>
    intro store y hk
    simp only [List.map_cons, List.mem_cons] at hk
    push_neg at hk
    simp only [List.foldl_cons]
    rw [ih (upsertBy key store x0) y hk.2]
    exact mem_upsertBy_key_iff key store x0 y hk.1

theorem foldl_upsertBy_written {α κ : Type} [DecidableEq κ] (key : α → κ) :
    ∀ (xs : List α) (store : List α),
      (xs.map key).Nodup →
      ∀ x ∈ xs, (∀ y ∈ xs.foldl (upsertBy key) store, key y = key x → y = x)
        ∧ x ∈ xs.foldl (upsertBy key) store := by
  intro xs
  induction xs with
  | nil => intro store _ x hx; simp at hx
  | cons x0 rest ih =>
    intro store hnd x hx
    simp only [List.map_cons, List.nodup_cons] at hnd
    rcases List.mem_cons.mp hx with hx0 | hxr
    · subst hx0
      constructor
      · intro y hy hky
        have := (foldl_upsertBy_untouched key rest (upsertBy key store x) y
          (by rw [hky]; exact hnd.1)).mp (by simpa using hy)
        exact mem_upsertBy_key_eq key store x y this hky
      · simp only [List.foldl_cons]
        exact (foldl_upsertBy_untouched key rest (upsertBy key store x) x hnd.1).mpr
          (exists_mem_upsertBy key store x)
    · simpa using ih (upsertBy key store x0) hnd.2 x hxr

theorem foldl_upsertBy_idem {α κ : Type} [DecidableEq κ] (key : α → κ)
    (xs : List α) (store : List α) (hnd : (xs.map key).Nodup) :
    xs.foldl (upsertBy key) (xs.foldl (upsertBy key) store) = xs.foldl (upsertBy key) store := by
  set s1 := xs.foldl (upsertBy key) store with hs1
  have hprop : ∀ x ∈ xs, (∀ y ∈ s1, key y = key x → y = x) ∧ x ∈ s1 :=
    fun x hx => foldl_upsertBy_written key xs store hnd x hx
  clear_value s1
  clear hs1 hnd
  induction xs with
  | nil => simp
  | cons x0 rest ih =>
    have h0 := hprop x0 (by simp)
    have hstep : upsertBy key s1 x0 = s1 := by
      unfold upsertBy
      rw [if_pos (List.mem_map.mpr ⟨x0, h0.2, rfl⟩)]
      have : ∀ y ∈ s1, (if key y = key x0 then x0 else y) = y := by
        intro y hy
        by_cases hky : key y = key x0
        · rw [if_pos hky]
          exact (h0.1 y hy hky).symm
        · rw [if_neg hky]
      calc s1.map (fun y => if key y = key x0 then x0 else y)
          = s1.map id := List.map_congr_left (fun y hy => this y hy)
        _ = s1 := List.map_id s1
    simp only [List.foldl_cons, hstep]
    exact ih (fun x hx => hprop x (List.mem_cons_of_mem _ hx))

end PipelineInsights

namespace PipelineInsights

/-! ### Feature builder (`build_features`)

The SQL step selects `(project_id, job_name, day, builds, fails,
p95_duration, avg_duration, max_retries)` from `metrics_daily` in the
window; the pandas step aggregates per `(project_id, job_name)`; the
payload is written to `features_offline` with `ON CONFLICT (entity_key,
feature_version) DO UPDATE` and to `features_online` with `ON CONFLICT
(entity_key) DO UPDATE`. -/

/-- The columns the feature query selects from `metrics_daily` (its SELECT
  list; `total_duration` and the other columns are not fetched). -/
structure FRow where
  project_id : Int
  job_name : String
  day : Int
  builds : Nat
  fails : Nat
  p95_duration : Option ℚ
  avg_duration : Option ℚ
  max_retries : Int
deriving DecidableEq

/-- Projection of a `metrics_daily` row onto the feature query's SELECT list. -/
def projF (m : DailyMetric) : FRow :=
  { project_id := m.project_id, job_name := m.job_name, day := m.day,
    builds := m.builds, fails := m.fails, p95_duration := m.p95_duration,
    avg_duration := m.avg_duration, max_retries := m.max_retries }

/-- SQL `WHERE` clause of the feature query: `day <= today` when
  `window_days = 0`, otherwise `today - window_days <= day <= today`
  (both comparisons inclusive). -/
def featureWindowPred (pid : Int) (w : Int) (today : Int) (m : DailyMetric) : Bool :=
  decide (m.project_id = pid) &&
    (if w = 0 then decide (m.day ≤ today)
     else decide (today - w ≤ m.day) && decide (m.day ≤ today))

/-- Rows fetched by the feature query. -/
def fetchFeatureRows (pid : Int) (w : Int) (today : Int)
    (ms : List DailyMetric) : List FRow :=
  (ms.filter (featureWindowPred pid w today)).map projF

/-- Groupby key of the feature aggregation. -/
def fkey (r : FRow) : Int × String := (r.project_id, r.job_name)

/-- The per-entity aggregate of the features frame (sums of counts, means of
  the fetched duration columns, max of max retries). -/
structure EntityAgg where
  project_id : Int
  job_name : String
  builds : Nat
  fails : Nat
  p95_mean : Option ℚ
  avg_mean : Option ℚ
  max_retries : Int
deriving DecidableEq

/-- Aggregation of one entity's daily rows, mirroring the `.agg` dictionary
  of `build_features` (`builds: sum, fails: sum, p95_duration: mean,
  avg_duration: mean, max_retries: max`). -/
def aggregateEntity (k : Int × String) (g : List FRow) : EntityAgg :=
  { project_id := k.1
    job_name := k.2
    builds := (g.map FRow.builds).sum
    fails := (g.map FRow.fails).sum
    p95_mean := meanOpt (g.filterMap FRow.p95_duration)
    avg_mean := meanOpt (g.filterMap FRow.avg_duration)
    max_retries := (listMax (g.map FRow.max_retries)).getD 0 }

/-- Per-entity aggregates of the fetched rows, one per distinct entity key. -/
def entityAggs (rows : List FRow) : List EntityAgg :=
  ((rows.map fkey).dedup).map
    (fun k => aggregateEntity k (rows.filter (fun r => fkey r = k)))

/-- The JSONB feature payload built for one entity.  `fail_rate` is
  `fails / (builds + 1)`; `dur_total` is the entity's mean daily p95 coerced
  to `0.0` when null (`to_numeric(...).fillna(0.0)`); the stage fields
  apportion the mean average-duration by the fixed 40/50/10 ratios. -/
structure FeaturePayload where
  dur_total : ℚ
  stage_build : ℚ
  stage_test : ℚ
  stage_deploy : ℚ
  fail_rate : ℚ
  max_retries : Int
deriving DecidableEq

/-- Payload construction of `build_features` for one aggregated entity. -/
def mkPayload (a : EntityAgg) : FeaturePayload :=
  { dur_total := (a.p95_mean).getD 0
    stage_build := match a.avg_mean with | some x => x * (2 / 5) | none => 0
    stage_test := match a.avg_mean with | some x => x * (1 / 2) | none => 0
    stage_deploy := match a.avg_mean with | some x => x * (1 / 10) | none => 0
    fail_rate := (a.fails : ℚ) / ((a.builds : ℚ) + 1)
    max_retries := a.max_retries }

/-- A row of the `features_offline` table (also the element shape of the
  in-memory `feature_list`). -/
structure FeatureRecord where
  entity_key : String
  feature_version : Int
  payload : FeaturePayload
  event_time : Int
deriving DecidableEq

/-- A row of the `features_online` table. -/
structure OnlineRow where
  entity_key : String
  feature_version : Int
  payload : FeaturePayload
deriving DecidableEq

/-- The record appended to `feature_list` for one entity:
  `entity_key = f"{project_id}:{job_name}"` and
  `event_time = datetime.combine(end_date, midnight)` (the run's reference
  date, as a timestamp). -/
def featureOf (v : Int) (today : Int) (a : EntityAgg) : FeatureRecord :=
  { entity_key := toString a.project_id ++ ":" ++ a.job_name
    feature_version := v
    payload := mkPayload a
    event_time := 86400 * today }

/-- The `feature_list` built by `build_features` before the upserts. -/
def buildFeatureList (pid : Int) (w : Int) (v : Int) (today : Int)
    (ms : List DailyMetric) : List FeatureRecord :=
  (entityAggs (fetchFeatureRows pid w today ms)).map (featureOf v today)

/-- Conflict target of the `features_offline` upsert: the SQL statement
  names `ON CONFLICT (entity_key, feature_version)`. -/
def offKey (f : FeatureRecord) : String × Int := (f.entity_key, f.feature_version)

/-- The `features_online` row written for one feature record. -/
def onRowOf (f : FeatureRecord) : OnlineRow :=
  { entity_key := f.entity_key, feature_version := f.feature_version,
    payload := f.payload }

/-- The upsert loop of `build_features`: for each feature record, upsert the
  offline row on `(entity_key, feature_version)` and the online row on
  `entity_key`; returns the two updated stores. -/
def buildFeatures (pid : Int) (w : Int) (v : Int) (today : Int)
    (ms : List DailyMetric) (off : List FeatureRecord) (onl : List OnlineRow) :
    List FeatureRecord × List OnlineRow :=
  (buildFeatureList pid w v today ms).foldl
    (fun st f => (upsertBy offKey st.1 f, upsertBy OnlineRow.entity_key st.2 (onRowOf f)))
    (off, onl)

theorem buildFeatures_eq_pair (pid w v today : Int) (ms : List DailyMetric)
    (off : List FeatureRecord) (onl : List OnlineRow) :
    buildFeatures pid w v today ms off onl =
      ((buildFeatureList pid w v today ms).foldl (upsertBy offKey) off,
       (buildFeatureList pid w v today ms).foldl
         (fun s f => upsertBy OnlineRow.entity_key s (onRowOf f)) onl) := by
  unfold buildFeatures
  generalize buildFeatureList pid w v today ms = l
  induction l generalizing off onl with
  | nil => simp
  | cons f rest ih => simp only [List.foldl_cons]; exact ih _ _

end PipelineInsights

namespace PipelineInsights

/-! ### Watermarks and the orchestrator (`run`)

`processing_watermarks` holds one `(source, last_ts)` row per source;
`update_watermark` is an upsert on `source`.  `run` sequences: load new
pipelines → append → advance pipelines watermark (skipped for an empty
batch), the same for jobs, then `compute_metrics_daily` and
`build_features`.  The trace of store operations is recorded so that the
ordering of appends and watermark writes is provable. -/

/-- `SELECT last_ts FROM processing_watermarks WHERE source = ...`. -/
def wmGet : List (String × Int) → String → Option Int
  | [], _ => none
  | p :: ps, src => if p.1 = src then some p.2 else wmGet ps src

/-- `INSERT INTO processing_watermarks ... ON CONFLICT (source) DO UPDATE`. -/
def wmSet : List (String × Int) → String → Int → List (String × Int)
  | [], src, ts => [(src, ts)]
  | p :: ps, src, ts => if p.1 = src then (src, ts) :: ps else p :: wmSet ps src ts

theorem wmGet_wmSet_same (s : List (String × Int)) (src : String) (ts : Int) :
    wmGet (wmSet s src ts) src = some ts := by
  induction s with
  | nil => simp [wmGet, wmSet]
  | cons p ps ih =>
    by_cases h : p.1 = src
    · simp [wmSet, wmGet, h]
    · simp [wmSet, wmGet, h, ih]

theorem wmGet_wmSet_other (s : List (String × Int)) (src src' : String) (ts : Int)
    (h : src' ≠ src) : wmGet (wmSet s src ts) src' = wmGet s src' := by
  induction s with
  | nil =>
    simp only [wmSet, wmGet]
    rw [if_neg (fun hh : src = src' => h hh.symm)]
  | cons p ps ih =>
    by_cases hp : p.1 = src
    · simp only [wmSet, if_pos hp, wmGet]
      rw [if_neg (fun hh : src = src' => h hh.symm),
          if_neg (fun hh : p.1 = src' => h (hp ▸ hh).symm)]
    · simp only [wmSet, if_neg hp, wmGet]
      by_cases hp' : p.1 = src'
      · rw [if_pos hp', if_pos hp']
      · rw [if_neg hp', if_neg hp', ih]

/-- `load_new_raw('pipelines', last_ts)`: the staged events, filtered to
  `updated_at > last_ts` when a watermark exists (a missing `updated_at`
  compares false); without a watermark everything is loaded. -/
def loadNewPipelines (wm : Option Int) (staged : List PipelineEvent) :
    List PipelineEvent :=
  match wm with
  | none => staged
  | some ts =>
    staged.filter (fun e =>
      match e.updated_at with
      | some t => decide (ts < t)
      | none => false)

/-- `load_new_raw('jobs', last_ts)`: filtered on `created_at` instead. -/
def loadNewJobs (wm : Option Int) (staged : List RawJobEvent) :
    List RawJobEvent :=
  match wm with
  | none => staged
  | some ts =>
    staged.filter (fun e =>
      match e.created_at with
      | some t => decide (ts < t)
      | none => false)

/-- `df_pipelines['updated_at'].max()` (pandas max skips missing values). -/
def pipeMaxTs (b : List PipelineEvent) : Option Int :=
  listMax (b.filterMap PipelineEvent.updated_at)

/-- `df_jobs['created_at'].max()`. -/
def jobsMaxTs (b : List RawJobEvent) : Option Int :=
  listMax (b.filterMap RawJobEvent.created_at)

/-- Store operations executed by one orchestrator run, in order. -/
inductive Op where
  | appendPipelines (batch : List PipelineEvent)
  | appendJobs (batch : List RawJobEvent)
  | setWatermark (source : String) (ts : Int)
  | computeMetrics (w : Int)
  | buildFeats (w : Int) (v : Int)
deriving DecidableEq

/-- Full persisted state touched by the ETL. -/
structure EtlState where
  watermarks : List (String × Int)
  pipelinesRaw : List PipelineRow
  jobsRaw : List JobRow
  metricsDaily : List DailyMetric
  featuresOffline : List FeatureRecord
  featuresOnline : List OnlineRow
deriving DecidableEq

/-- The pipelines phase of `run`: load new events since the watermark; if the
  batch is nonempty, append it (a failure propagates) and then advance the
  watermark to the batch's max `updated_at` when that max exists. -/
def loadStagePipelines (pid : Int) (staged : List PipelineEvent) (st : EtlState) :
    Except String (EtlState × List Op) :=
  let b := loadNewPipelines (wmGet st.watermarks "pipelines") staged
  if b = [] then Except.ok (st, [])
  else
    match appendRawPipelines pid st.pipelinesRaw b with
    | Except.error e => Except.error e
    | Except.ok praw =>
      match pipeMaxTs b with
      | some m =>
        Except.ok ({ st with pipelinesRaw := praw,
                             watermarks := wmSet st.watermarks "pipelines" m },
                   [Op.appendPipelines b, Op.setWatermark "pipelines" m])
      | none =>
        Except.ok ({ st with pipelinesRaw := praw }, [Op.appendPipelines b])

/-- The jobs phase of `run`, keyed on `created_at`. -/
def loadStageJobs (pid : Int) (staged : List RawJobEvent) (st : EtlState) :
    Except String (EtlState × List Op) :=
  let b := loadNewJobs (wmGet st.watermarks "jobs") staged
  if b = [] then Except.ok (st, [])
  else
    match appendRawJobs pid st.jobsRaw b with
    | Except.error e => Except.error e
    | Except.ok jraw =>
      match jobsMaxTs b with
      | some m =>
        Except.ok ({ st with jobsRaw := jraw,
                             watermarks := wmSet st.watermarks "jobs" m },
                   [Op.appendJobs b, Op.setWatermark "jobs" m])
      | none =>
        Except.ok ({ st with jobsRaw := jraw }, [Op.appendJobs b])

/-- `IncrementalETL.run(reprocess_window_days=w)`: both load phases, then
  the metrics window re-aggregation, then the feature build with window
  `0` when `w = 0` and `30` otherwise (`fv` is the current feature version
  read from `kv_config`). -/
def run (pid : Int) (today : Int) (w : Int) (fv : Int)
    (stagedP : List PipelineEvent) (stagedJ : List RawJobEvent)
    (st : EtlState) : Except String (EtlState × List Op) :=
  match loadStagePipelines pid stagedP st with
  | Except.error e => Except.error e
  | Except.ok (st1, tr1) =>
    match loadStageJobs pid stagedJ st1 with
    | Except.error e => Except.error e
    | Except.ok (st2, tr2) =>
      let st3 := { st2 with
        metricsDaily := computeMetricsDaily pid w today st2.jobsRaw st2.metricsDaily }
      let fw : Int := if w = 0 then 0 else 30
      let fr := buildFeatures pid fw fv today st3.metricsDaily
        st3.featuresOffline st3.featuresOnline
      Except.ok ({ st3 with featuresOffline := fr.1, featuresOnline := fr.2 },
                 tr1 ++ tr2 ++ [Op.computeMetrics w, Op.buildFeats fw fv])

/-- Parameters of one orchestrator run. -/
structure RunInput where
  today : Int
  w : Int
  fv : Int
  stagedP : List PipelineEvent
  stagedJ : List RawJobEvent
deriving DecidableEq

/-- A sequence of orchestrator runs; any failing run fails the sequence. -/
def runSeq (pid : Int) : List RunInput → EtlState → Except String EtlState
  | [], st => Except.ok st
  | i :: rest, st =>
    match run pid i.today i.w i.fv i.stagedP i.stagedJ st with
    | Except.error e => Except.error e
    | Except.ok (st', _) => runSeq pid rest st'

end PipelineInsights

namespace PipelineInsights

/-! ### Supporting lemmas for the claim theorems -/

theorem mkey_aggregateGroup (k : Int × String × Int) (g : List JobRow) :
    mkey (aggregateGroup k g) = k := rfl

theorem computeMetricsGroups_map_mkey (pid w today : Int) (raw : List JobRow) :
    (computeMetricsGroups pid w today raw).map mkey =
      ((raw.filter (metricsWindowPred pid w today)).filterMap groupKey).dedup := by
  unfold computeMetricsGroups
  rw [List.map_map]
  have h : ∀ k ∈ ((raw.filter (metricsWindowPred pid w today)).filterMap groupKey).dedup,
      (mkey ∘ fun kk => aggregateGroup kk
        ((raw.filter (metricsWindowPred pid w today)).filter
          (fun r => groupKey r = some kk))) k = id k := by
    intro k _
    rfl
  rw [List.map_congr_left h, List.map_id]

theorem computeMetricsGroups_mkey_nodup (pid w today : Int) (raw : List JobRow) :
    ((computeMetricsGroups pid w today raw).map mkey).Nodup := by
  rw [computeMetricsGroups_map_mkey]
  exact List.nodup_dedup _

end PipelineInsights

namespace PipelineInsights

/-- Claim C2: raw ingestion is idempotent.  If a batch of raw events was
appended successfully (`append_raw_to_db`, insert with
`ON CONFLICT (id) DO NOTHING`), appending the very same batch again leaves
the raw store unchanged, for the jobs store and for the pipelines store
alike: every event's natural id is already present after the first call, so
each re-insert is a no-op and never an overwrite. -/
theorem raw_ingestion_idempotent (pid pid' : Int)
    (sJ sJ' : List JobRow) (bJ : List RawJobEvent)
    (sP sP' : List PipelineRow) (bP : List PipelineEvent)
    (hJ : appendRawJobs pid sJ bJ = Except.ok sJ')
    (hP : appendRawPipelines pid' sP bP = Except.ok sP') :
    appendRawJobs pid sJ' bJ = Except.ok sJ' ∧
      appendRawPipelines pid' sP' bP = Except.ok sP' :=
  ⟨appendGo_idem _ _ bJ sJ sJ' hJ, appendGo_idem _ _ bP sP sP' hP⟩

/-- Concrete staged job event used by the C2 witness. -/
def c2job : RawJobEvent :=
  { id := some 7, pipeline_id := some 3, name := some "build", stage := none,
    status := some "success", duration := some 42, queued_duration := none,
    failure_reason := none, retry := some 1, web_url := none,
    created_at := some 864000, started_at := none, finished_at := none }

/-- The `jobs_raw` row the C2 witness batch produces. -/
def c2jobRow : JobRow :=
  { id := 7, pipeline_id := some 3, project_id := 5, name := some "build",
    stage := none, status := some "success", duration := some 42,
    queued_duration := none, failure_reason := none, retry_count := 1,
    web_url := none, created_at := some 864000, started_at := none,
    finished_at := none }

/-- Concrete staged pipeline event used by the C2 witness. -/
def c2pipe : PipelineEvent :=
  { id := some 9, status := some "success", ref := some "main", sha := none,
    web_url := none, created_at := some 864000, updated_at := some 864100,
    finished_at := none }

/-- The `pipelines_raw` row the C2 witness batch produces. -/
def c2pipeRow : PipelineRow :=
  { id := 9, project_id := 5, status := some "success", ref := some "main",
    sha := none, web_url := none, created_at := some 864000,
    updated_at := some 864100, finished_at := none }

theorem raw_ingestion_idempotent_witness :
    appendRawJobs 5 [c2jobRow] [c2job] = Except.ok [c2jobRow] ∧
      appendRawPipelines 5 [c2pipeRow] [c2pipe] = Except.ok [c2pipeRow] :=
  raw_ingestion_idempotent 5 5 [] [c2jobRow] [c2job] [] [c2pipeRow] [c2pipe]
    (by decide) (by decide)

/-- Claim C5: aggregation is idempotent.  For a fixed raw store and window,
running `compute_metrics_daily` twice consecutively yields exactly the same
`metrics_daily` store as running it once: the aggregate is a deterministic
function of the raw events in the window and the second run's upsert
overwrites each `(project_id, job_name, day)` row with equal values. -/
theorem metrics_aggregation_idempotent (pid w today : Int) (raw : List JobRow)
    (ms : List DailyMetric) :
    computeMetricsDaily pid w today raw (computeMetricsDaily pid w today raw ms) =
      computeMetricsDaily pid w today raw ms :=
  foldl_upsertBy_idem mkey _ ms (computeMetricsGroups_mkey_nodup pid w today raw)

end PipelineInsights

namespace PipelineInsights

/-- Claim C7: for every entity aggregated by the feature builder, the
payload's `fail_rate` equals the entity's summed fail count divided exactly
by the summed build count plus one (`fails / (builds + 1)`, the `+1`
smoothing). -/
theorem fail_rate_smoothing (pid w v today : Int) (ms : List DailyMetric)
    (f : FeatureRecord) (hf : f ∈ buildFeatureList pid w v today ms) :
    ∃ k ∈ ((fetchFeatureRows pid w today ms).map fkey).dedup,
      f.payload.fail_rate =
        (((((fetchFeatureRows pid w today ms).filter
            (fun r => fkey r = k)).map FRow.fails).sum : ℚ)) /
        (((((fetchFeatureRows pid w today ms).filter
            (fun r => fkey r = k)).map FRow.builds).sum : ℚ) + 1) := by
  unfold buildFeatureList at hf
  rcases List.mem_map.mp hf with ⟨a, ha, rfl⟩
  unfold entityAggs at ha
  rcases List.mem_map.mp ha with ⟨k, hk, rfl⟩
  exact ⟨k, hk, rfl⟩

/-- Metric row with `builds = 10`, `fails = 2`: the C7 witness entity. -/
def c7metric : DailyMetric :=
  { project_id := 1, job_name := "deploy", day := 100, builds := 10, fails := 2,
    p95_duration := none, p99_duration := none, avg_duration := none,
    total_duration := 0, max_retries := 0, error_types := [] }

/-- The single feature record built from `c7metric` (fail rate `2/11`). -/
def c7feature : FeatureRecord :=
  { entity_key := "1:deploy", feature_version := 1,
    payload := { dur_total := 0, stage_build := 0, stage_test := 0,
                 stage_deploy := 0, fail_rate := 2 / 11, max_retries := 0 },
    event_time := 86400 * 100 }

/-- The single entity aggregate built from `c7metric`. -/
def c7agg : EntityAgg :=
  { project_id := 1, job_name := "deploy", builds := 10, fails := 2,
    p95_mean := none, avg_mean := none, max_retries := 0 }

theorem c7_buildFeatureList_eval :
    buildFeatureList 1 0 1 100 [c7metric] = [c7feature] := by
  have h1 : entityAggs (fetchFeatureRows 1 0 100 [c7metric]) = [c7agg] := by decide
  unfold buildFeatureList
  rw [h1]
  norm_num [featureOf, mkPayload, c7agg, c7feature]
  decide

theorem fail_rate_smoothing_witness :
    (∃ k ∈ ((fetchFeatureRows 1 0 100 [c7metric]).map fkey).dedup,
      c7feature.payload.fail_rate =
        (((((fetchFeatureRows 1 0 100 [c7metric]).filter
            (fun r => fkey r = k)).map FRow.fails).sum : ℚ)) /
        (((((fetchFeatureRows 1 0 100 [c7metric]).filter
            (fun r => fkey r = k)).map FRow.builds).sum : ℚ) + 1)) ∧
      c7feature.payload.fail_rate = 2 / 11 :=
  ⟨fail_rate_smoothing 1 0 1 100 [c7metric] c7feature
    (c7_buildFeatureList_eval ▸ List.mem_singleton.mpr rfl), rfl⟩

/-- Claim C10: in every feature payload, `dur_total` is the arithmetic mean
of the entity's daily p95 durations present in the window (`0` when every
daily p95 is missing), not a sum of durations; and the `total_duration`
column of the daily metrics is never consulted — rewriting it arbitrarily in
every row leaves the whole feature list unchanged. -/
theorem dur_total_p95_mean (pid w v today : Int) (ms : List DailyMetric)
    (f : FeatureRecord) (hf : f ∈ buildFeatureList pid w v today ms) :
    (∃ k ∈ ((fetchFeatureRows pid w today ms).map fkey).dedup,
      f.payload.dur_total =
        (meanOpt (((fetchFeatureRows pid w today ms).filter
          (fun r => fkey r = k)).filterMap FRow.p95_duration)).getD 0) ∧
    ∀ g : DailyMetric → ℚ,
      buildFeatureList pid w v today
          (ms.map (fun m => { m with total_duration := g m })) =
        buildFeatureList pid w v today ms := by
  constructor
  · unfold buildFeatureList at hf
    rcases List.mem_map.mp hf with ⟨a, ha, rfl⟩
    unfold entityAggs at ha
    rcases List.mem_map.mp ha with ⟨k, hk, rfl⟩
    exact ⟨k, hk, rfl⟩
  · intro g
    unfold buildFeatureList
    have hfetch : fetchFeatureRows pid w today
        (ms.map (fun m => { m with total_duration := g m })) =
        fetchFeatureRows pid w today ms := by
      unfold fetchFeatureRows
      rw [List.filter_map, List.map_map]
      rfl
    rw [hfetch]

/-- Metric rows for the C10 witness: two days for one entity, one with a p95
of 100 and one with a missing p95, plus nonzero `total_duration`s. -/
def c10metricA : DailyMetric :=
  { project_id := 2, job_name := "test", day := 50, builds := 3, fails := 1,
    p95_duration := some 100, p99_duration := none, avg_duration := some 60,
    total_duration := 500, max_retries := 2, error_types := [] }

/-- Second C10 metric row (missing p95). -/
def c10metricB : DailyMetric :=
  { project_id := 2, job_name := "test", day := 51, builds := 2, fails := 0,
    p95_duration := none, p99_duration := none, avg_duration := some 40,
    total_duration := 900, max_retries := 0, error_types := [] }

/-- The feature record built from the two C10 metric rows: `dur_total` is
the mean of the single present p95 (100), not `500 + 900`. -/
def c10feature : FeatureRecord :=
  { entity_key := "2:test", feature_version := 1,
    payload := { dur_total := 100, stage_build := 20, stage_test := 25,
                 stage_deploy := 5, fail_rate := 1 / 6, max_retries := 2 },
    event_time := 86400 * 60 }

/-- The single entity aggregate built from the two C10 metric rows. -/
def c10agg : EntityAgg :=
  { project_id := 2, job_name := "test", builds := 5, fails := 1,
    p95_mean := some 100, avg_mean := some 50, max_retries := 2 }

theorem c10_entityAggs_eval :
    entityAggs (fetchFeatureRows 2 0 60 [c10metricA, c10metricB]) = [c10agg] := by
  have hkeys : ((fetchFeatureRows 2 0 60 [c10metricA, c10metricB]).map fkey).dedup
      = [(2, "test")] := by decide
  have hfil : (fetchFeatureRows 2 0 60 [c10metricA, c10metricB]).filter
      (fun r => fkey r = (2, "test")) = [projF c10metricA, projF c10metricB] := by decide
  unfold entityAggs
  rw [hkeys]
  simp only [List.map_cons, List.map_nil]
  rw [hfil]
  norm_num [aggregateEntity, meanOpt, listMax, projF, c10metricA, c10metricB, c10agg,
    List.filterMap_cons]
  simp

theorem c10_buildFeatureList_eval :
    buildFeatureList 2 0 1 60 [c10metricA, c10metricB] = [c10feature] := by
  unfold buildFeatureList
  rw [c10_entityAggs_eval]
  norm_num [featureOf, mkPayload, c10agg, c10feature]
  decide

theorem dur_total_p95_mean_witness :
    (∃ k ∈ ((fetchFeatureRows 2 0 60 [c10metricA, c10metricB]).map fkey).dedup,
      c10feature.payload.dur_total =
        (meanOpt (((fetchFeatureRows 2 0 60 [c10metricA, c10metricB]).filter
          (fun r => fkey r = k)).filterMap FRow.p95_duration)).getD 0) ∧
    ∀ g : DailyMetric → ℚ,
      buildFeatureList 2 0 1 60
          ([c10metricA, c10metricB].map (fun m => { m with total_duration := g m })) =
        buildFeatureList 2 0 1 60 [c10metricA, c10metricB] :=
  dur_total_p95_mean 2 0 1 60 [c10metricA, c10metricB] c10feature
    (c10_buildFeatureList_eval ▸ List.mem_singleton.mpr rfl)

end PipelineInsights

namespace PipelineInsights

theorem quantileQ_singleton (q x : ℚ) : quantileQ q [x] = some x := by
  unfold quantileQ sortQ
  simp [insertSorted]

/-- Staged raw job of the C9 scenario:
  `{id:1, name:"test", status:"failed", duration:120, created_at:"2025-01-01"}`
  (the timestamp 1735689600 is 2025-01-01T00:00:00Z, day number 20089). -/
def c9job : RawJobEvent :=
  { id := some 1, pipeline_id := none, name := some "test", stage := none,
    status := some "failed", duration := some 120, queued_duration := none,
    failure_reason := none, retry := none, web_url := none,
    created_at := some 1735689600, started_at := none, finished_at := none }

/-- The single `jobs_raw` row the C9 scenario stores. -/
def c9row : JobRow :=
  { id := 1, pipeline_id := none, project_id := 1, name := some "test",
    stage := none, status := some "failed", duration := some 120,
    queued_duration := none, failure_reason := none, retry_count := 0,
    web_url := none, created_at := some 1735689600, started_at := none,
    finished_at := none }

/-- The daily metric the C9 scenario computes for ("test", 2025-01-01). -/
def c9metric : DailyMetric :=
  { project_id := 1, job_name := "test", day := 20089, builds := 1, fails := 1,
    p95_duration := some 120, p99_duration := some 120, avg_duration := some 120,
    total_duration := 120, max_retries := 0, error_types := [] }

theorem c9_aggregate_eval : aggregateGroup (1, "test", 20089) [c9row] = c9metric := by
  unfold aggregateGroup
  norm_num [c9row, c9metric, quantileQ_singleton, meanOpt, listMax, valueCounts,
    List.filterMap_cons]
  decide

theorem c9_groups_eval :
    computeMetricsGroups 1 0 20089 [c9row] = [c9metric] := by
  have h1 : [c9row].filter (metricsWindowPred 1 0 20089) = [c9row] := by decide
  have h2 : ([c9row].filterMap groupKey).dedup = [(1, "test", 20089)] := by decide
  have h3 : [c9row].filter (fun r => groupKey r = some (1, "test", 20089)) = [c9row] := by
    decide
  simp only [computeMetricsGroups, h1, h2, h3, List.map_cons, List.map_nil]
  rw [c9_aggregate_eval]

/-- Claim C9: end-to-end dedup-and-count scenario.  Ingesting the raw job
`{id:1, name:"test", status:"failed", duration:120, created_at:"2025-01-01"}`
and then ingesting an event with id 1 again leaves exactly one row with
`id = 1` in the jobs raw store, and `compute_metrics_daily(0)` afterwards
reports `builds = 1` and `fails = 1` for entity "test" on 2025-01-01 (the
'failed' job counts as both a build and a failure). -/
theorem dedup_and_count_scenario :
    appendRawJobs 1 [] [c9job] = Except.ok [c9row] ∧
    appendRawJobs 1 [c9row] [c9job] = Except.ok [c9row] ∧
    ([c9row].filter (fun r => r.id = 1)).length = 1 ∧
    computeMetricsDaily 1 0 20089 [c9row] [] = [c9metric] ∧
    c9metric.builds = 1 ∧ c9metric.fails = 1 := by
  refine ⟨by decide, by decide, by decide, ?_, rfl, rfl⟩
  unfold computeMetricsDaily
  rw [c9_groups_eval]
  simp [upsertBy]

end PipelineInsights

namespace PipelineInsights

theorem dayOf_le_iff (t d : Int) : dayOf t ≤ d ↔ t < 86400 * (d + 1) := by
  have h0 : t = 86400 * Int.ediv t 86400 + Int.emod t 86400 :=
    (Int.ediv_add_emod t 86400).symm
  have h1 : 0 ≤ Int.emod t 86400 := Int.emod_nonneg t (by norm_num)
  have h2 : Int.emod t 86400 < 86400 := Int.emod_lt_of_pos t (by norm_num)
  unfold dayOf
  omega

theorem dayOf_ge_iff (t d : Int) : d ≤ dayOf t ↔ 86400 * d ≤ t := by
  have h0 : t = 86400 * Int.ediv t 86400 + Int.emod t 86400 :=
    (Int.ediv_add_emod t 86400).symm
  have h1 : 0 ≤ Int.emod t 86400 := Int.emod_nonneg t (by norm_num)
  have h2 : Int.emod t 86400 < 86400 := Int.emod_lt_of_pos t (by norm_num)
  unfold dayOf
  omega

theorem metricsWindowPred_day_iff (pid w today : Int) (hw : w ≠ 0) (r : JobRow) :
    metricsWindowPred pid w today r = true ↔
      (r.project_id = pid ∧ ∃ t, r.created_at = some t ∧
        today - w ≤ dayOf t ∧ dayOf t ≤ today) := by
  unfold metricsWindowPred
  cases hc : r.created_at with
  | none => simp
  | some t =>
    simp only [hc, if_neg hw, Bool.and_eq_true, decide_eq_true_eq, Option.some.injEq]
    constructor
    · rintro ⟨hp, h1, h2⟩
      exact ⟨hp, t, rfl, (dayOf_ge_iff t (today - w)).mpr h1, (dayOf_le_iff t today).mpr h2⟩
    · rintro ⟨hp, t', ht', h1, h2⟩
      cases ht'
      exact ⟨hp, (dayOf_ge_iff t (today - w)).mp h1, (dayOf_le_iff t today).mp h2⟩

theorem metricsWindowPred_zero_iff (pid today : Int) (r : JobRow) :
    metricsWindowPred pid 0 today r = true ↔
      (r.project_id = pid ∧ ∃ t, r.created_at = some t ∧ t ≤ 86400 * (today + 1)) := by
  unfold metricsWindowPred
  cases hc : r.created_at with
  | none => simp
  | some t =>
    simp only [hc, eq_self_iff_true, if_true, Bool.and_eq_true, decide_eq_true_eq,
      Option.some.injEq]
    constructor
    · rintro ⟨hp, h1⟩
      exact ⟨hp, t, rfl, h1⟩
    · rintro ⟨hp, t', ht', h1⟩
      cases ht'
      exact ⟨hp, h1⟩

theorem groupKey_day {r : JobRow} {k : Int × String × Int} (h : groupKey r = some k) :
    ∃ n t, r.name = some n ∧ r.created_at = some t ∧ k = (r.project_id, n, dayOf t) := by
  unfold groupKey at h
  cases hn : r.name with
  | none => rw [hn] at h; simp at h
  | some n =>
    cases hc : r.created_at with
    | none => rw [hn, hc] at h; simp at h
    | some t =>
      rw [hn, hc] at h
      simp only [Option.some.injEq] at h
      exact ⟨n, t, rfl, rfl, h.symm⟩

theorem computeMetricsGroups_source (pid w today : Int) (raw : List JobRow)
    (m : DailyMetric) (hm : m ∈ computeMetricsGroups pid w today raw) :
    ∃ r ∈ raw, metricsWindowPred pid w today r = true ∧ groupKey r = some (mkey m) := by
  unfold computeMetricsGroups at hm
  rcases List.mem_map.mp hm with ⟨k, hk, hmk⟩
  have hkey : mkey m = k := by rw [← hmk]; exact mkey_aggregateGroup k _
  rw [List.mem_dedup] at hk
  rcases List.mem_filterMap.mp hk with ⟨r, hr, hgk⟩
  rcases List.mem_filter.mp hr with ⟨hraw, hpred⟩
  exact ⟨r, hraw, hpred, hkey ▸ hgk⟩

theorem computeMetricsGroups_covers (pid w today : Int) (raw : List JobRow)
    (r : JobRow) (hr : r ∈ raw) (hpred : metricsWindowPred pid w today r = true)
    (k : Int × String × Int) (hk : groupKey r = some k) :
    k ∈ (computeMetricsGroups pid w today raw).map mkey := by
  rw [computeMetricsGroups_map_mkey, List.mem_dedup]
  exact List.mem_filterMap.mpr ⟨r, List.mem_filter.mpr ⟨hr, hpred⟩, hk⟩

/-- Claim C4: window correctness of `compute_metrics_daily`.  If every raw
job is dated on day D-5..D (D = today), then with `window_days = 3` the
aggregation reads exactly the jobs of days D-3..D and upserts keys only for
those days, while `window_days = 0` reads every job and upserts a key for
every job's day, i.e. all of D-5..D (no lower bound and no upper cut below
today). -/
theorem metrics_window_correct (pid today : Int) (raw : List JobRow)
    (hdom : ∀ r ∈ raw, r.project_id = pid ∧ ∃ t, r.created_at = some t ∧
        today - 5 ≤ dayOf t ∧ dayOf t ≤ today) :
    (∀ m ∈ computeMetricsGroups pid 3 today raw,
        today - 3 ≤ m.day ∧ m.day ≤ today) ∧
    (∀ r ∈ raw, ∀ t, r.created_at = some t → today - 3 ≤ dayOf t →
        metricsWindowPred pid 3 today r = true) ∧
    (∀ r ∈ raw, metricsWindowPred pid 0 today r = true) ∧
    (∀ m ∈ computeMetricsGroups pid 0 today raw,
        today - 5 ≤ m.day ∧ m.day ≤ today) ∧
    (∀ r ∈ raw, ∀ k, groupKey r = some k →
        k ∈ (computeMetricsGroups pid 0 today raw).map mkey) ∧
    (∀ r ∈ raw, ∀ k, groupKey r = some k → today - 3 ≤ k.2.2 →
        k ∈ (computeMetricsGroups pid 3 today raw).map mkey) := by
  have hzero : ∀ r ∈ raw, metricsWindowPred pid 0 today r = true := by
    intro r hr
    rcases hdom r hr with ⟨hp, t, ht, _, hle⟩
    exact (metricsWindowPred_zero_iff pid today r).mpr
      ⟨hp, t, ht, le_of_lt ((dayOf_le_iff t today).mp hle)⟩
  have hthree : ∀ r ∈ raw, ∀ t, r.created_at = some t → today - 3 ≤ dayOf t →
      metricsWindowPred pid 3 today r = true := by
    intro r hr t ht hge
    rcases hdom r hr with ⟨hp, t', ht', _, hle⟩
    rw [ht] at ht'
    cases ht'
    exact (metricsWindowPred_day_iff pid 3 today (by norm_num) r).mpr
      ⟨hp, t, ht, hge, hle⟩
  refine ⟨?_, hthree, hzero, ?_, ?_, ?_⟩
  · intro m hm
    rcases computeMetricsGroups_source pid 3 today raw m hm with ⟨r, hr, hpred, hgk⟩
    rcases (metricsWindowPred_day_iff pid 3 today (by norm_num) r).mp hpred
      with ⟨_, t, ht, h1, h2⟩
    rcases groupKey_day hgk with ⟨n, t', hn, ht', hk⟩
    rw [ht] at ht'
    cases ht'
    have : (mkey m).2.2 = dayOf t := by rw [hk]
    unfold mkey at this
    simp only at this
    constructor
    · rw [this]; exact h1
    · rw [this]; exact h2
  · intro m hm
    rcases computeMetricsGroups_source pid 0 today raw m hm with ⟨r, hr, _, hgk⟩
    rcases hdom r hr with ⟨_, t, ht, h1, h2⟩
    rcases groupKey_day hgk with ⟨n, t', hn, ht', hk⟩
    rw [ht] at ht'
    cases ht'
    have : (mkey m).2.2 = dayOf t := by rw [hk]
    unfold mkey at this
    simp only at this
    constructor
    · rw [this]; exact h1
    · rw [this]; exact h2
  · intro r hr k hk
    exact computeMetricsGroups_covers pid 0 today raw r hr (hzero r hr) k hk
  · intro r hr k hk hday
    rcases groupKey_day hk with ⟨n, t, hn, ht, hkk⟩
    have hd : k.2.2 = dayOf t := by rw [hkk]
    exact computeMetricsGroups_covers pid 3 today raw r hr
      (hthree r hr t ht (hd ▸ hday)) k hk

end PipelineInsights

namespace PipelineInsights

/-- One raw job on day `d` for the C4 witness. -/
def c4row (d : Int) : JobRow :=
  { id := d, pipeline_id := none, project_id := 1, name := some "j",
    stage := none, status := some "success", duration := none,
    queued_duration := none, failure_reason := none, retry_count := 0,
    web_url := none, created_at := some (86400 * d + 7), started_at := none,
    finished_at := none }

/-- Raw jobs dated on days 195..200 (D = 200) for the C4 witness. -/
def c4raw : List JobRow :=
  [c4row 195, c4row 196, c4row 197, c4row 198, c4row 199, c4row 200]

theorem metrics_window_correct_witness :
    (∀ m ∈ computeMetricsGroups 1 3 200 c4raw, 200 - 3 ≤ m.day ∧ m.day ≤ 200) ∧
    (∀ r ∈ c4raw, ∀ t, r.created_at = some t → 200 - 3 ≤ dayOf t →
        metricsWindowPred 1 3 200 r = true) ∧
    (∀ r ∈ c4raw, metricsWindowPred 1 0 200 r = true) ∧
    (∀ m ∈ computeMetricsGroups 1 0 200 c4raw, 200 - 5 ≤ m.day ∧ m.day ≤ 200) ∧
    (∀ r ∈ c4raw, ∀ k, groupKey r = some k →
        k ∈ (computeMetricsGroups 1 0 200 c4raw).map mkey) ∧
    (∀ r ∈ c4raw, ∀ k, groupKey r = some k → 200 - 3 ≤ k.2.2 →
        k ∈ (computeMetricsGroups 1 3 200 c4raw).map mkey) :=
  metrics_window_correct 1 200 c4raw (by
    intro r hr
    fin_cases hr <;> exact ⟨rfl, _, rfl, by decide, by decide⟩)

end PipelineInsights

namespace PipelineInsights

theorem upsertBy_map_key_nodup {α κ : Type} [DecidableEq κ] (key : α → κ)
    (store : List α) (x : α) (h : (store.map key).Nodup) :
    ((upsertBy key store x).map key).Nodup := by
  unfold upsertBy
  by_cases hm : key x ∈ store.map key
  · rw [if_pos hm, List.map_map]
    have : ∀ y ∈ store, (key ∘ fun y => if key y = key x then x else y) y = key y := by
      intro y _
      by_cases hk : key y = key x
      · simp only [Function.comp_apply]; rw [if_pos hk]; exact hk.symm
      · simp only [Function.comp_apply]; rw [if_neg hk]
    rw [List.map_congr_left this]
    exact h
  · rw [if_neg hm, List.map_append]
    simp only [List.map_cons, List.map_nil]
    exact List.Nodup.append h (List.nodup_singleton _)
      (by
        intro a ha hb
        simp only [List.mem_singleton] at hb
        exact hm (hb ▸ ha))

theorem foldl_upsertBy_map_key_nodup {α κ : Type} [DecidableEq κ] (key : α → κ) :
    ∀ (xs : List α) (store : List α), (store.map key).Nodup →
      ((xs.foldl (upsertBy key) store).map key).Nodup := by
  intro xs
  induction xs with
  | nil => intro store h; exact h
  | cons x rest ih =>
    intro store h
    exact ih _ (upsertBy_map_key_nodup key store x h)

theorem mem_buildFeatureList_event_time (pid w v today : Int) (ms : List DailyMetric)
    (f : FeatureRecord) (hf : f ∈ buildFeatureList pid w v today ms) :
    f.event_time = 86400 * today ∧ f.feature_version = v := by
  unfold buildFeatureList at hf
  rcases List.mem_map.mp hf with ⟨a, _, rfl⟩
  exact ⟨rfl, rfl⟩

/-- Daily metric feeding the C1 counterexample. -/
def c1metric : DailyMetric :=
  { project_id := 3, job_name := "lint", day := 10, builds := 4, fails := 0,
    p95_duration := none, p99_duration := none, avg_duration := none,
    total_duration := 0, max_retries := 0, error_types := [] }

/-- Entity aggregate of `c1metric`. -/
def c1agg : EntityAgg :=
  { project_id := 3, job_name := "lint", builds := 4, fails := 0,
    p95_mean := none, avg_mean := none, max_retries := 0 }

/-- The feature record built from `c1metric` on reference date `d`. -/
def c1featureAt (d : Int) : FeatureRecord :=
  { entity_key := "3:lint", feature_version := 1,
    payload := { dur_total := 0, stage_build := 0, stage_test := 0,
                 stage_deploy := 0, fail_rate := 0, max_retries := 0 },
    event_time := 86400 * d }

theorem c1_list10 : buildFeatureList 3 0 1 10 [c1metric] = [c1featureAt 10] := by
  have h1 : entityAggs (fetchFeatureRows 3 0 10 [c1metric]) = [c1agg] := by decide
  unfold buildFeatureList
  rw [h1]
  norm_num [featureOf, mkPayload, c1agg, c1featureAt]
  decide

theorem c1_list11 : buildFeatureList 3 0 1 11 [c1metric] = [c1featureAt 11] := by
  have h1 : entityAggs (fetchFeatureRows 3 0 11 [c1metric]) = [c1agg] := by decide
  unfold buildFeatureList
  rw [h1]
  norm_num [featureOf, mkPayload, c1agg, c1featureAt]
  decide

theorem c1_build10 :
    buildFeatures 3 0 1 10 [c1metric] [] [] =
      ([c1featureAt 10], [onRowOf (c1featureAt 10)]) := by
  rw [buildFeatures_eq_pair, c1_list10]
  simp [upsertBy]

theorem c1_build11 :
    buildFeatures 3 0 1 11 [c1metric] [c1featureAt 10] [onRowOf (c1featureAt 10)] =
      ([c1featureAt 11], [onRowOf (c1featureAt 11)]) := by
  rw [buildFeatures_eq_pair, c1_list11]
  simp [upsertBy, offKey, onRowOf, c1featureAt]

/-- Claim C1 is false on the code: building features for the same entity on
two different reference dates (`event_time` 864000 vs 950400) leaves exactly
ONE row in the offline feature store for that `(entity_key,
feature_version)`, not two — the offline upsert conflicts on `(entity_key,
feature_version)` alone and overwrites `payload` and `event_time` in place
(`ON CONFLICT (entity_key, feature_version) DO UPDATE`). -/
theorem offline_accumulation_counterexample :
    (c1featureAt 10).event_time ≠ (c1featureAt 11).event_time ∧
    (buildFeatures 3 0 1 11 [c1metric]
        (buildFeatures 3 0 1 10 [c1metric] [] []).1
        (buildFeatures 3 0 1 10 [c1metric] [] []).2).1 = [c1featureAt 11] ∧
    ¬ ((buildFeatures 3 0 1 11 [c1metric]
        (buildFeatures 3 0 1 10 [c1metric] [] []).1
        (buildFeatures 3 0 1 10 [c1metric] [] []).2).1.length = 2) := by
  rw [c1_build10]
  refine ⟨by decide, ?_, ?_⟩
  · rw [c1_build11]
  · rw [c1_build11]
    decide

/-- Claim C1 (amended): running the feature builder on two windows with
different reference dates yields, per `(entity_key, feature_version)`, at
most one offline row, overwritten in place: offline keys stay duplicate-free,
and every offline row whose key was written by the second run equals that
run's record and carries the second run's `event_time` (the first run's
`event_time` is gone).  The nodup hypotheses hold for any store keyed by its
conflict target and any run whose entities map to distinct entity keys. -/
theorem offline_overwrite_amended (pid w v D1 D2 : Int) (ms : List DailyMetric)
    (off : List FeatureRecord) (onl : List OnlineRow)
    (hnd : (off.map offKey).Nodup)
    (hnd2 : ((buildFeatureList pid w v D2 ms).map offKey).Nodup) :
    ((buildFeatures pid w v D2 ms
        (buildFeatures pid w v D1 ms off onl).1
        (buildFeatures pid w v D1 ms off onl).2).1.map offKey).Nodup ∧
    (∀ f ∈ buildFeatureList pid w v D2 ms,
      ∀ y ∈ (buildFeatures pid w v D2 ms
          (buildFeatures pid w v D1 ms off onl).1
          (buildFeatures pid w v D1 ms off onl).2).1,
        offKey y = offKey f → y = f ∧ y.event_time = 86400 * D2) := by
  rw [buildFeatures_eq_pair, buildFeatures_eq_pair]
  have hnd1 : (((buildFeatureList pid w v D1 ms).foldl (upsertBy offKey) off).map offKey).Nodup :=
    foldl_upsertBy_map_key_nodup offKey _ off hnd
  constructor
  · exact foldl_upsertBy_map_key_nodup offKey _ _ hnd1
  · intro f hf y hy hk
    have hw := foldl_upsertBy_written offKey (buildFeatureList pid w v D2 ms)
      ((buildFeatureList pid w v D1 ms).foldl (upsertBy offKey) off) hnd2 f hf
    have hyf : y = f := hw.1 y hy hk
    refine ⟨hyf, ?_⟩
    rw [hyf]
    exact (mem_buildFeatureList_event_time pid w v D2 ms f hf).1

theorem offline_overwrite_amended_witness :
    (((buildFeatures 3 0 1 11 [c1metric]
        (buildFeatures 3 0 1 10 [c1metric] [] []).1
        (buildFeatures 3 0 1 10 [c1metric] [] []).2).1.map offKey).Nodup) ∧
    (∀ f ∈ buildFeatureList 3 0 1 11 [c1metric],
      ∀ y ∈ (buildFeatures 3 0 1 11 [c1metric]
          (buildFeatures 3 0 1 10 [c1metric] [] []).1
          (buildFeatures 3 0 1 10 [c1metric] [] []).2).1,
        offKey y = offKey f → y = f ∧ y.event_time = 86400 * 11) :=
  offline_overwrite_amended 3 0 1 10 11 [c1metric] [] [] (by decide)
    (by rw [c1_list11]; decide)

end PipelineInsights

namespace PipelineInsights

theorem appendGo_ok_of_toRow_ok {α β : Type} (toRow : β → Except String α)
    (key : α → Int) :
    ∀ (batch : List β) (store : List α),
      (∀ e ∈ batch, ∃ r, toRow e = Except.ok r) →
      ∃ s', appendGo toRow key store batch = Except.ok s' := by
  intro batch
  induction batch with
  | nil => intro store _; exact ⟨store, rfl⟩
  | cons e rest ih =>
    intro store hall
    rcases hall e (by simp) with ⟨r, hr⟩
    rcases ih (insertOrIgnore key store r) (fun x hx => hall x (List.mem_cons_of_mem _ hx))
      with ⟨s', hs'⟩
    refine ⟨s', ?_⟩
    simp only [appendGo]
    rw [hr]
    exact hs'

theorem appendGo_error_of_bad {α β : Type} (toRow : β → Except String α)
    (key : α → Int) (batch : List β) (store : List α)
    (hbad : ∃ e ∈ batch, ∀ r, ¬ toRow e = Except.ok r) :
    ∃ msg, appendGo toRow key store batch = Except.error msg := by
  cases hres : appendGo toRow key store batch with
  | error msg => exact ⟨msg, rfl⟩
  | ok s' =>
    rcases hbad with ⟨e, he, hne⟩
    rcases appendGo_toRow_ok toRow key batch store s' hres e he with ⟨r, hr⟩
    exact absurd hr (hne r)

theorem jobRowOfEvent_ok (pid : Int) (batch : List RawJobEvent) (e : RawJobEvent)
    (h : e.id.isSome) (hn : jobRowNaN batch e = false) :
    ∃ r, jobRowOfEvent pid batch e = Except.ok r := by
  unfold jobRowOfEvent
  cases hi : e.id with
  | none => rw [hi] at h; simp at h
  | some i =>
    dsimp only
    rw [if_neg (by simp [hn])]
    exact ⟨_, rfl⟩

theorem jobRowOfEvent_id (pid : Int) (batch : List RawJobEvent) (e : RawJobEvent)
    (i : Int) (h : e.id = some i) (r : JobRow)
    (hr : jobRowOfEvent pid batch e = Except.ok r) : r.id = i := by
  unfold jobRowOfEvent at hr
  rw [h] at hr
  dsimp only at hr
  by_cases hn : jobRowNaN batch e = true
  · rw [if_pos hn] at hr
    exact Except.noConfusion hr
  · rw [if_neg hn] at hr
    cases hr
    rfl

theorem jobRowOfEvent_not_ok (pid : Int) (batch : List RawJobEvent) (e : RawJobEvent)
    (hn : jobRowNaN batch e = true) :
    ∀ r, ¬ jobRowOfEvent pid batch e = Except.ok r := by
  intro r hr
  unfold jobRowOfEvent at hr
  cases hi : e.id with
  | none => rw [hi] at hr; exact Except.noConfusion hr
  | some i =>
    rw [hi] at hr
    dsimp only at hr
    rw [if_pos hn] at hr
    exact Except.noConfusion hr

/-- A well-formed job event followed by one missing its `name`, `status`,
`duration` and timestamps (but not its id), and another well-formed one. -/
def c8good1 : RawJobEvent :=
  { id := some 1, pipeline_id := none, name := some "a", stage := none,
    status := some "success", duration := none, queued_duration := none,
    failure_reason := none, retry := none, web_url := none,
    created_at := some 100, started_at := none, finished_at := none }

/-- The malformed C8 event: every expected field except the id is missing. -/
def c8malformed : RawJobEvent :=
  { id := some 2, pipeline_id := none, name := none, stage := none,
    status := none, duration := none, queued_duration := none,
    failure_reason := none, retry := none, web_url := none,
    created_at := none, started_at := none, finished_at := none }

/-- Third, well-formed C8 event. -/
def c8good2 : RawJobEvent :=
  { id := some 3, pipeline_id := none, name := some "b", stage := none,
    status := some "failed", duration := none, queued_duration := none,
    failure_reason := none, retry := none, web_url := none,
    created_at := some 200, started_at := none, finished_at := none }

/-- Claim C8 is false on the code: `append_raw_to_db` neither skips a
malformed record nor commits the rest of its batch.  In a batch whose other
records carry `name` and `status`, the DataFrame has those columns, so the
malformed record's missing values are the float `NaN`; the unguarded
`row.get` parameters pass `NaN` to the INSERT, which raises, and the whole
uncommitted call aborts — no row of the batch is stored, where the claim
predicts the two well-formed records committed and the malformed one
skipped.  The same two well-formed records without the malformed one commit
fine. -/
theorem malformed_event_counterexample :
    (∃ msg, appendRawJobs 7 [] [c8good1, c8malformed, c8good2] = Except.error msg) ∧
    (∀ s', ¬ appendRawJobs 7 [] [c8good1, c8malformed, c8good2] = Except.ok s') ∧
    (∃ s', appendRawJobs 7 [] [c8good1, c8good2] = Except.ok s' ∧ s'.length = 2) := by
  have herr : appendRawJobs 7 [] [c8good1, c8malformed, c8good2] =
      Except.error "NaN from a missing field cannot be inserted into this column" := by
    decide
  refine ⟨⟨_, herr⟩, ?_, ?_⟩
  · intro s' hok
    rw [herr] at hok
    exact Except.noConfusion hok
  · refine ⟨[{ id := 1, pipeline_id := none, project_id := 7, name := some "a",
               stage := none, status := some "success", duration := none,
               queued_duration := none, failure_reason := none, retry_count := 0,
               web_url := none, created_at := some 100, started_at := none,
               finished_at := none },
             { id := 3, pipeline_id := none, project_id := 7, name := some "b",
               stage := none, status := some "failed", duration := none,
               queued_duration := none, failure_reason := none, retry_count := 0,
               web_url := none, created_at := some 200, started_at := none,
               finished_at := none }], by decide, by decide⟩

/-- Claim C8 (amended): a malformed raw event is never skipped, and whether
the batch survives depends on the rest of the batch.  When every event
carries its natural id and no event is missing an unguarded field that
another record of the batch carries (the missing fields then have no
columns and are bound as NULL), the call commits and the store holds a row
for every id of the batch, malformed records included.  When some event is
missing an unguarded field that another record of the batch does carry,
that value is `NaN`, the INSERT raises, and the entire call aborts with
nothing committed. -/
theorem malformed_event_amended (pid : Int) (store : List JobRow)
    (batch : List RawJobEvent) (hids : ∀ e ∈ batch, e.id.isSome) :
    ((∀ e ∈ batch, jobRowNaN batch e = false) →
      ∃ s', appendRawJobs pid store batch = Except.ok s' ∧
        ∀ e ∈ batch, ∀ i, e.id = some i → i ∈ s'.map JobRow.id) ∧
    ((∃ e ∈ batch, jobRowNaN batch e = true) →
      ∃ msg, appendRawJobs pid store batch = Except.error msg) := by
  constructor
  · intro hok
    rcases appendGo_ok_of_toRow_ok (jobRowOfEvent pid batch) JobRow.id batch store
        (fun e he => jobRowOfEvent_ok pid batch e (hids e he) (hok e he)) with ⟨s', hs'⟩
    refine ⟨s', hs', ?_⟩
    intro e he i hi
    rcases jobRowOfEvent_ok pid batch e (hids e he) (hok e he) with ⟨r, hr⟩
    have hcov := appendGo_key_covers (jobRowOfEvent pid batch) JobRow.id batch store s'
      hs' e he r hr
    rwa [jobRowOfEvent_id pid batch e i hi r hr] at hcov
  · intro hbad
    rcases hbad with ⟨e, he, hn⟩
    exact appendGo_error_of_bad (jobRowOfEvent pid batch) JobRow.id batch store
      ⟨e, he, jobRowOfEvent_not_ok pid batch e hn⟩

theorem malformed_event_amended_witness :
    ((∀ e ∈ [c8malformed], jobRowNaN [c8malformed] e = false) →
      ∃ s', appendRawJobs 7 [] [c8malformed] = Except.ok s' ∧
        ∀ e ∈ [c8malformed], ∀ i, e.id = some i → i ∈ s'.map JobRow.id) ∧
    ((∃ e ∈ [c8malformed], jobRowNaN [c8malformed] e = true) →
      ∃ msg, appendRawJobs 7 [] [c8malformed] = Except.error msg) :=
  malformed_event_amended 7 [] [c8malformed] (by decide)

end PipelineInsights

namespace PipelineInsights

theorem loadNewPipelines_gt {ts : Int} {staged : List PipelineEvent} {e : PipelineEvent}
    (he : e ∈ loadNewPipelines (some ts) staged) :
    ∃ t, e.updated_at = some t ∧ ts < t := by
  unfold loadNewPipelines at he
  rcases List.mem_filter.mp he with ⟨_, hp⟩
  cases hu : e.updated_at with
  | none => rw [hu] at hp; simp at hp
  | some t =>
    rw [hu] at hp
    simp only [decide_eq_true_eq] at hp
    exact ⟨t, rfl, hp⟩

theorem loadNewJobs_gt {ts : Int} {staged : List RawJobEvent} {e : RawJobEvent}
    (he : e ∈ loadNewJobs (some ts) staged) :
    ∃ t, e.created_at = some t ∧ ts < t := by
  unfold loadNewJobs at he
  rcases List.mem_filter.mp he with ⟨_, hp⟩
  cases hu : e.created_at with
  | none => rw [hu] at hp; simp at hp
  | some t =>
    rw [hu] at hp
    simp only [decide_eq_true_eq] at hp
    exact ⟨t, rfl, hp⟩

theorem pipeMaxTs_gt {ts m : Int} {b : List PipelineEvent}
    (hb : ∀ e ∈ b, ∃ t, e.updated_at = some t ∧ ts < t)
    (hm : pipeMaxTs b = some m) : ts < m := by
  unfold pipeMaxTs at hm
  rcases List.mem_filterMap.mp (listMax_mem hm) with ⟨e, he, hu⟩
  rcases hb e he with ⟨t, ht, hlt⟩
  rw [ht] at hu
  cases hu
  exact hlt

theorem jobsMaxTs_gt {ts m : Int} {b : List RawJobEvent}
    (hb : ∀ e ∈ b, ∃ t, e.created_at = some t ∧ ts < t)
    (hm : jobsMaxTs b = some m) : ts < m := by
  unfold jobsMaxTs at hm
  rcases List.mem_filterMap.mp (listMax_mem hm) with ⟨e, he, hu⟩
  rcases hb e he with ⟨t, ht, hlt⟩
  rw [ht] at hu
  cases hu
  exact hlt

theorem loadStagePipelines_wm_mono (pid : Int) (staged : List PipelineEvent)
    (st st1 : EtlState) (tr1 : List Op)
    (h : loadStagePipelines pid staged st = Except.ok (st1, tr1)) :
    ∀ src ts, wmGet st.watermarks src = some ts →
      ∃ ts', wmGet st1.watermarks src = some ts' ∧ ts ≤ ts' := by
  intro src ts hts
  simp only [loadStagePipelines] at h
  by_cases hb : loadNewPipelines (wmGet st.watermarks "pipelines") staged = []
  · rw [if_pos hb] at h
    simp only [Except.ok.injEq, Prod.mk.injEq] at h
    exact ⟨ts, h.1 ▸ hts, le_refl ts⟩
  · rw [if_neg hb] at h
    cases happ : appendRawPipelines pid st.pipelinesRaw
        (loadNewPipelines (wmGet st.watermarks "pipelines") staged) with
    | error e => rw [happ] at h; simp at h
    | ok praw =>
      rw [happ] at h
      cases hmax : pipeMaxTs (loadNewPipelines (wmGet st.watermarks "pipelines") staged) with
      | none =>
        rw [hmax] at h
        simp only [Except.ok.injEq, Prod.mk.injEq] at h
        refine ⟨ts, ?_, le_refl ts⟩
        rw [← h.1]
        exact hts
      | some m =>
        rw [hmax] at h
        simp only [Except.ok.injEq, Prod.mk.injEq] at h
        by_cases hsrc : src = "pipelines"
        · subst hsrc
          rw [hts] at hmax
          have hlt : ts < m := pipeMaxTs_gt (fun e he => loadNewPipelines_gt he) hmax
          refine ⟨m, ?_, le_of_lt hlt⟩
          rw [← h.1]
          exact wmGet_wmSet_same st.watermarks "pipelines" m
        · refine ⟨ts, ?_, le_refl ts⟩
          rw [← h.1]
          show wmGet (wmSet st.watermarks "pipelines" m) src = some ts
          rw [wmGet_wmSet_other st.watermarks "pipelines" src m hsrc]
          exact hts

theorem loadStageJobs_wm_mono (pid : Int) (staged : List RawJobEvent)
    (st st1 : EtlState) (tr1 : List Op)
    (h : loadStageJobs pid staged st = Except.ok (st1, tr1)) :
    ∀ src ts, wmGet st.watermarks src = some ts →
      ∃ ts', wmGet st1.watermarks src = some ts' ∧ ts ≤ ts' := by
  intro src ts hts
  simp only [loadStageJobs] at h
  by_cases hb : loadNewJobs (wmGet st.watermarks "jobs") staged = []
  · rw [if_pos hb] at h
    simp only [Except.ok.injEq, Prod.mk.injEq] at h
    exact ⟨ts, h.1 ▸ hts, le_refl ts⟩
  · rw [if_neg hb] at h
    cases happ : appendRawJobs pid st.jobsRaw
        (loadNewJobs (wmGet st.watermarks "jobs") staged) with
    | error e => rw [happ] at h; simp at h
    | ok jraw =>
      rw [happ] at h
      cases hmax : jobsMaxTs (loadNewJobs (wmGet st.watermarks "jobs") staged) with
      | none =>
        rw [hmax] at h
        simp only [Except.ok.injEq, Prod.mk.injEq] at h
        refine ⟨ts, ?_, le_refl ts⟩
        rw [← h.1]
        exact hts
      | some m =>
        rw [hmax] at h
        simp only [Except.ok.injEq, Prod.mk.injEq] at h
        by_cases hsrc : src = "jobs"
        · subst hsrc
          rw [hts] at hmax
          have hlt : ts < m := jobsMaxTs_gt (fun e he => loadNewJobs_gt he) hmax
          refine ⟨m, ?_, le_of_lt hlt⟩
          rw [← h.1]
          exact wmGet_wmSet_same st.watermarks "jobs" m
        · refine ⟨ts, ?_, le_refl ts⟩
          rw [← h.1]
          show wmGet (wmSet st.watermarks "jobs" m) src = some ts
          rw [wmGet_wmSet_other st.watermarks "jobs" src m hsrc]
          exact hts

theorem run_wm_mono (pid today w fv : Int)
    (stagedP : List PipelineEvent) (stagedJ : List RawJobEvent)
    (st st' : EtlState) (tr : List Op)
    (h : run pid today w fv stagedP stagedJ st = Except.ok (st', tr)) :
    ∀ src ts, wmGet st.watermarks src = some ts →
      ∃ ts', wmGet st'.watermarks src = some ts' ∧ ts ≤ ts' := by
  intro src ts hts
  unfold run at h
  cases h1 : loadStagePipelines pid stagedP st with
  | error e => rw [h1] at h; simp at h
  | ok p1 =>
    rw [h1] at h
    obtain ⟨st1, tr1⟩ := p1
    dsimp only at h
    cases h2 : loadStageJobs pid stagedJ st1 with
    | error e => rw [h2] at h; simp at h
    | ok p2 =>
      rw [h2] at h
      obtain ⟨st2, tr2⟩ := p2
      simp only [Except.ok.injEq, Prod.mk.injEq] at h
      rcases loadStagePipelines_wm_mono pid stagedP st st1 tr1 h1 src ts hts
        with ⟨ts1, hts1, hle1⟩
      rcases loadStageJobs_wm_mono pid stagedJ st1 st2 tr2 h2 src ts1 hts1
        with ⟨ts2, hts2, hle2⟩
      refine ⟨ts2, ?_, le_trans hle1 hle2⟩
      rw [← h.1]
      exact hts2

/-- Claim C3: watermark monotonicity.  Across any sequence of successful
orchestrator runs, the stored `last_ts` of every source never decreases:
`load_new_raw` keeps only events strictly after the current watermark and
`run` advances a watermark only to the maximum timestamp of that filtered
batch. -/
theorem watermark_monotonic (pid : Int) (inputs : List RunInput) :
    ∀ (st st' : EtlState), runSeq pid inputs st = Except.ok st' →
      ∀ src ts, wmGet st.watermarks src = some ts →
        ∃ ts', wmGet st'.watermarks src = some ts' ∧ ts ≤ ts' := by
  induction inputs with
  | nil =>
    intro st st' h src ts hts
    simp only [runSeq, Except.ok.injEq] at h
    exact ⟨ts, h ▸ hts, le_refl ts⟩
  | cons i rest ih =>
    intro st st' h src ts hts
    simp only [runSeq] at h
    cases hr : run pid i.today i.w i.fv i.stagedP i.stagedJ st with
    | error e => rw [hr] at h; simp at h
    | ok p =>
      rw [hr] at h
      obtain ⟨st1, tr1⟩ := p
      rcases run_wm_mono pid i.today i.w i.fv i.stagedP i.stagedJ st st1 tr1 hr
        src ts hts with ⟨ts1, hts1, hle1⟩
      rcases ih st1 st' h src ts1 hts1 with ⟨ts2, hts2, hle2⟩
      exact ⟨ts2, hts2, le_trans hle1 hle2⟩

end PipelineInsights

namespace PipelineInsights

/-- Staged pipeline event of the C3 witness (updated after the watermark). -/
def c3pev : PipelineEvent :=
  { id := some 11, status := some "success", ref := none, sha := none,
    web_url := none, created_at := none, updated_at := some 300,
    finished_at := none }

/-- Staged job event of the C3 witness (no job name, so no metric row). -/
def c3jev : RawJobEvent :=
  { id := some 21, pipeline_id := none, name := none, stage := none,
    status := none, duration := none, queued_duration := none,
    failure_reason := none, retry := none, web_url := none,
    created_at := some 200, started_at := none, finished_at := none }

/-- Initial state of the C3 witness: both watermarks set. -/
def c3state0 : EtlState :=
  { watermarks := [("pipelines", 100), ("jobs", 50)], pipelinesRaw := [],
    jobsRaw := [], metricsDaily := [], featuresOffline := [],
    featuresOnline := [] }

/-- State after the single C3 witness run. -/
def c3state1 : EtlState :=
  { watermarks := [("pipelines", 300), ("jobs", 200)],
    pipelinesRaw := [{ id := 11, project_id := 9, status := some "success",
                       ref := none, sha := none, web_url := none,
                       created_at := none, updated_at := some 300,
                       finished_at := none }],
    jobsRaw := [{ id := 21, pipeline_id := none, project_id := 9, name := none,
                  stage := none, status := none, duration := none,
                  queued_duration := none, failure_reason := none,
                  retry_count := 0, web_url := none, created_at := some 200,
                  started_at := none, finished_at := none }],
    metricsDaily := [], featuresOffline := [], featuresOnline := [] }

/-- Parameters of the single C3 witness run. -/
def c3input : RunInput :=
  { today := 0, w := 3, fv := 1, stagedP := [c3pev], stagedJ := [c3jev] }

theorem watermark_monotonic_witness :
    (∃ ts', wmGet c3state1.watermarks "pipelines" = some ts' ∧ 100 ≤ ts') ∧
    (∃ ts', wmGet c3state1.watermarks "jobs" = some ts' ∧ 50 ≤ ts') :=
  ⟨watermark_monotonic 9 [c3input] c3state0 c3state1 (by decide) "pipelines" 100
      (by decide),
   watermark_monotonic 9 [c3input] c3state0 c3state1 (by decide) "jobs" 50
      (by decide)⟩

end PipelineInsights

namespace PipelineInsights

theorem loadStagePipelines_shape (pid : Int) (staged : List PipelineEvent)
    (st st1 : EtlState) (tr1 : List Op)
    (h : loadStagePipelines pid staged st = Except.ok (st1, tr1)) :
    (loadNewPipelines (wmGet st.watermarks "pipelines") staged = [] ∧ tr1 = []) ∨
    (∃ b, loadNewPipelines (wmGet st.watermarks "pipelines") staged = b ∧ b ≠ [] ∧
      ((pipeMaxTs b = none ∧ tr1 = [Op.appendPipelines b]) ∨
       (∃ m, pipeMaxTs b = some m ∧
         tr1 = [Op.appendPipelines b, Op.setWatermark "pipelines" m]))) := by
  simp only [loadStagePipelines] at h
  by_cases hb : loadNewPipelines (wmGet st.watermarks "pipelines") staged = []
  · rw [if_pos hb] at h
    simp only [Except.ok.injEq, Prod.mk.injEq] at h
    exact Or.inl ⟨hb, h.2.symm⟩
  · rw [if_neg hb] at h
    cases happ : appendRawPipelines pid st.pipelinesRaw
        (loadNewPipelines (wmGet st.watermarks "pipelines") staged) with
    | error e => rw [happ] at h; simp at h
    | ok praw =>
      rw [happ] at h
      cases hmax : pipeMaxTs (loadNewPipelines (wmGet st.watermarks "pipelines") staged) with
      | none =>
        rw [hmax] at h
        simp only [Except.ok.injEq, Prod.mk.injEq] at h
        exact Or.inr ⟨_, rfl, hb, Or.inl ⟨hmax, h.2.symm⟩⟩
      | some m =>
        rw [hmax] at h
        simp only [Except.ok.injEq, Prod.mk.injEq] at h
        exact Or.inr ⟨_, rfl, hb, Or.inr ⟨m, hmax, h.2.symm⟩⟩

theorem loadStageJobs_shape (pid : Int) (staged : List RawJobEvent)
    (st st1 : EtlState) (tr1 : List Op)
    (h : loadStageJobs pid staged st = Except.ok (st1, tr1)) :
    (loadNewJobs (wmGet st.watermarks "jobs") staged = [] ∧ tr1 = []) ∨
    (∃ b, loadNewJobs (wmGet st.watermarks "jobs") staged = b ∧ b ≠ [] ∧
      ((jobsMaxTs b = none ∧ tr1 = [Op.appendJobs b]) ∨
       (∃ m, jobsMaxTs b = some m ∧
         tr1 = [Op.appendJobs b, Op.setWatermark "jobs" m]))) := by
  simp only [loadStageJobs] at h
  by_cases hb : loadNewJobs (wmGet st.watermarks "jobs") staged = []
  · rw [if_pos hb] at h
    simp only [Except.ok.injEq, Prod.mk.injEq] at h
    exact Or.inl ⟨hb, h.2.symm⟩
  · rw [if_neg hb] at h
    cases happ : appendRawJobs pid st.jobsRaw
        (loadNewJobs (wmGet st.watermarks "jobs") staged) with
    | error e => rw [happ] at h; simp at h
    | ok jraw =>
      rw [happ] at h
      cases hmax : jobsMaxTs (loadNewJobs (wmGet st.watermarks "jobs") staged) with
      | none =>
        rw [hmax] at h
        simp only [Except.ok.injEq, Prod.mk.injEq] at h
        exact Or.inr ⟨_, rfl, hb, Or.inl ⟨hmax, h.2.symm⟩⟩
      | some m =>
        rw [hmax] at h
        simp only [Except.ok.injEq, Prod.mk.injEq] at h
        exact Or.inr ⟨_, rfl, hb, Or.inr ⟨m, hmax, h.2.symm⟩⟩

theorem loadStagePipelines_wm_other (pid : Int) (staged : List PipelineEvent)
    (st st1 : EtlState) (tr1 : List Op)
    (h : loadStagePipelines pid staged st = Except.ok (st1, tr1)) :
    wmGet st1.watermarks "jobs" = wmGet st.watermarks "jobs" := by
  simp only [loadStagePipelines] at h
  by_cases hb : loadNewPipelines (wmGet st.watermarks "pipelines") staged = []
  · rw [if_pos hb] at h
    simp only [Except.ok.injEq, Prod.mk.injEq] at h
    rw [← h.1]
  · rw [if_neg hb] at h
    cases happ : appendRawPipelines pid st.pipelinesRaw
        (loadNewPipelines (wmGet st.watermarks "pipelines") staged) with
    | error e => rw [happ] at h; simp at h
    | ok praw =>
      rw [happ] at h
      cases hmax : pipeMaxTs (loadNewPipelines (wmGet st.watermarks "pipelines") staged) with
      | none =>
        rw [hmax] at h
        simp only [Except.ok.injEq, Prod.mk.injEq] at h
        rw [← h.1]
      | some m =>
        rw [hmax] at h
        simp only [Except.ok.injEq, Prod.mk.injEq] at h
        rw [← h.1]
        exact wmGet_wmSet_other st.watermarks "pipelines" "jobs" m (by decide)

end PipelineInsights

namespace PipelineInsights

theorem pipelines_ordering_of_shape (tr1 rest : List Op)
    (hshape : tr1 = [] ∨ (∃ b, b ≠ [] ∧
      ((pipeMaxTs b = none ∧ tr1 = [Op.appendPipelines b]) ∨
       (∃ m, pipeMaxTs b = some m ∧
         tr1 = [Op.appendPipelines b, Op.setWatermark "pipelines" m]))))
    (hrest : ∀ op ∈ rest, ∀ ts, op ≠ Op.setWatermark "pipelines" ts) :
    ∀ (i : Nat) (ts : Int), (tr1 ++ rest)[i]? = some (Op.setWatermark "pipelines" ts) →
      ∃ (j : Nat) (b : List PipelineEvent), j < i ∧
        (tr1 ++ rest)[j]? = some (Op.appendPipelines b) ∧ b ≠ [] ∧
        pipeMaxTs b = some ts := by
  intro i ts hi
  rw [List.getElem?_append] at hi
  by_cases hlt : i < tr1.length
  · rw [if_pos hlt] at hi
    rcases hshape with h0 | ⟨b, hb, hcase⟩
    · rw [h0] at hlt; simp at hlt
    · rcases hcase with ⟨hmax, h1⟩ | ⟨m, hmax, h1⟩
      · subst h1
        have hi0 : i = 0 := by simp at hlt; omega
        subst hi0
        simp at hi
      · subst h1
        have : i = 0 ∨ i = 1 := by simp at hlt; omega
        rcases this with h0 | h1'
        · subst h0; simp at hi
        · subst h1'
          simp only [List.getElem?_cons_succ, List.getElem?_cons_zero,
            Option.some.injEq, Op.setWatermark.injEq] at hi
          refine ⟨0, b, by omega, ?_, hb, ?_⟩
          · simp [List.getElem?_append]
          · rw [hmax, hi.2]
  · rw [if_neg hlt] at hi
    exact absurd rfl (hrest _ (List.getElem?_mem hi) ts)

theorem jobs_ordering_of_shape (tr1 tr2 tail : List Op)
    (h1 : ∀ op ∈ tr1, ∀ ts, op ≠ Op.setWatermark "jobs" ts)
    (htail : ∀ op ∈ tail, ∀ ts, op ≠ Op.setWatermark "jobs" ts)
    (hshape : tr2 = [] ∨ (∃ b, b ≠ [] ∧
      ((jobsMaxTs b = none ∧ tr2 = [Op.appendJobs b]) ∨
       (∃ m, jobsMaxTs b = some m ∧
         tr2 = [Op.appendJobs b, Op.setWatermark "jobs" m])))) :
    ∀ (i : Nat) (ts : Int), (tr1 ++ (tr2 ++ tail))[i]? = some (Op.setWatermark "jobs" ts) →
      ∃ (j : Nat) (b : List RawJobEvent), j < i ∧
        (tr1 ++ (tr2 ++ tail))[j]? = some (Op.appendJobs b) ∧ b ≠ [] ∧
        jobsMaxTs b = some ts := by
  intro i ts hi
  rw [List.getElem?_append] at hi
  by_cases hlt : i < tr1.length
  · rw [if_pos hlt] at hi
    exact absurd rfl (h1 _ (List.getElem?_mem hi) ts)
  · rw [if_neg hlt] at hi
    rw [List.getElem?_append] at hi
    by_cases hlt2 : i - tr1.length < tr2.length
    · rw [if_pos hlt2] at hi
      rcases hshape with h0 | ⟨b, hb, hcase⟩
      · rw [h0] at hlt2; simp at hlt2
      · rcases hcase with ⟨hmax, h2⟩ | ⟨m, hmax, h2⟩
        · subst h2
          have hi0 : i - tr1.length = 0 := by simp at hlt2; omega
          rw [hi0] at hi
          simp at hi
        · subst h2
          have hcases : i - tr1.length = 0 ∨ i - tr1.length = 1 := by
            simp at hlt2; omega
          rcases hcases with h0 | h1'
          · rw [h0] at hi; simp at hi
          · rw [h1'] at hi
            simp only [List.getElem?_cons_succ, List.getElem?_cons_zero,
              Option.some.injEq, Op.setWatermark.injEq] at hi
            refine ⟨tr1.length, b, by omega, ?_, hb, ?_⟩
            · rw [List.getElem?_append, if_neg (by omega), Nat.sub_self,
                List.getElem?_append]
              simp
            · rw [hmax, hi.2]
    · rw [if_neg hlt2] at hi
      exact absurd rfl (htail _ (List.getElem?_mem hi) ts)

end PipelineInsights

namespace PipelineInsights

/-- Claim C6: watermark write ordering.  In every successful orchestrator
run, a watermark write for a source appears in the operation trace only
after the append of the corresponding nonempty raw batch (append raw → set
watermark, never the reverse), the watermark value is exactly that batch's
maximum timestamp, and when the loaded batch of a source is empty no
watermark write for that source occurs at all. -/
theorem watermark_write_ordering (pid today w fv : Int)
    (stagedP : List PipelineEvent) (stagedJ : List RawJobEvent)
    (st st' : EtlState) (tr : List Op)
    (h : run pid today w fv stagedP stagedJ st = Except.ok (st', tr)) :
    (∀ (i : Nat) (ts : Int), tr[i]? = some (Op.setWatermark "pipelines" ts) →
      ∃ (j : Nat) (b : List PipelineEvent), j < i ∧
        tr[j]? = some (Op.appendPipelines b) ∧ b ≠ [] ∧ pipeMaxTs b = some ts) ∧
    (∀ (i : Nat) (ts : Int), tr[i]? = some (Op.setWatermark "jobs" ts) →
      ∃ (j : Nat) (b : List RawJobEvent), j < i ∧
        tr[j]? = some (Op.appendJobs b) ∧ b ≠ [] ∧ jobsMaxTs b = some ts) ∧
    (loadNewPipelines (wmGet st.watermarks "pipelines") stagedP = [] →
      ∀ (i : Nat) (ts : Int), ¬ tr[i]? = some (Op.setWatermark "pipelines" ts)) ∧
    (loadNewJobs (wmGet st.watermarks "jobs") stagedJ = [] →
      ∀ (i : Nat) (ts : Int), ¬ tr[i]? = some (Op.setWatermark "jobs" ts)) := by
  unfold run at h
  cases h1 : loadStagePipelines pid stagedP st with
  | error e => rw [h1] at h; simp at h
  | ok p1 =>
    rw [h1] at h
    obtain ⟨st1, tr1⟩ := p1
    dsimp only at h
    cases h2 : loadStageJobs pid stagedJ st1 with
    | error e => rw [h2] at h; simp at h
    | ok p2 =>
      rw [h2] at h
      obtain ⟨st2, tr2⟩ := p2
      dsimp only at h
      simp only [Except.ok.injEq, Prod.mk.injEq] at h
      have htr : tr = tr1 ++ (tr2 ++ [Op.computeMetrics w,
          Op.buildFeats (if w = 0 then 0 else 30) fv]) := by
        rw [← h.2, List.append_assoc]
      subst htr
      have hshapeP := loadStagePipelines_shape pid stagedP st st1 tr1 h1
      have hshapeJ := loadStageJobs_shape pid stagedJ st1 st2 tr2 h2
      have hwmo := loadStagePipelines_wm_other pid stagedP st st1 tr1 h1
      have hmemP : ∀ op ∈ tr1, (∃ b, op = Op.appendPipelines b) ∨
          (∃ m, op = Op.setWatermark "pipelines" m) := by
        rcases hshapeP with ⟨_, h0⟩ | ⟨b, _, _, hc⟩
        · subst h0; intro op hop; simp at hop
        · rcases hc with ⟨_, h1'⟩ | ⟨m, _, h1'⟩
          · subst h1'
            intro op hop
            simp only [List.mem_singleton] at hop
            exact Or.inl ⟨b, hop⟩
          · subst h1'
            intro op hop
            rcases List.mem_cons.mp hop with ho | ho
            · exact Or.inl ⟨b, ho⟩
            · simp only [List.mem_singleton] at ho
              exact Or.inr ⟨m, ho⟩
      have hmemJ : ∀ op ∈ tr2, (∃ b, op = Op.appendJobs b) ∨
          (∃ m, op = Op.setWatermark "jobs" m) := by
        rcases hshapeJ with ⟨_, h0⟩ | ⟨b, _, _, hc⟩
        · subst h0; intro op hop; simp at hop
        · rcases hc with ⟨_, h1'⟩ | ⟨m, _, h1'⟩
          · subst h1'
            intro op hop
            simp only [List.mem_singleton] at hop
            exact Or.inl ⟨b, hop⟩
          · subst h1'
            intro op hop
            rcases List.mem_cons.mp hop with ho | ho
            · exact Or.inl ⟨b, ho⟩
            · simp only [List.mem_singleton] at ho
              exact Or.inr ⟨m, ho⟩
      have hnoJ1 : ∀ op ∈ tr1, ∀ ts, op ≠ Op.setWatermark "jobs" ts := by
        intro op hop ts heq
        rcases hmemP op hop with ⟨b, hb⟩ | ⟨m, hm⟩
        · rw [heq] at hb; exact Op.noConfusion hb
        · have : Op.setWatermark "jobs" ts = Op.setWatermark "pipelines" m :=
            heq.symm.trans hm
          simp at this
      have hnoP2 : ∀ op ∈ tr2, ∀ ts, op ≠ Op.setWatermark "pipelines" ts := by
        intro op hop ts heq
        rcases hmemJ op hop with ⟨b, hb⟩ | ⟨m, hm⟩
        · rw [heq] at hb; exact Op.noConfusion hb
        · have : Op.setWatermark "pipelines" ts = Op.setWatermark "jobs" m :=
            heq.symm.trans hm
          simp at this
      have hnoTail : ∀ op ∈ [Op.computeMetrics w,
          Op.buildFeats (if w = 0 then 0 else 30) fv],
          ∀ src ts, op ≠ Op.setWatermark src ts := by
        intro op hop src ts heq
        rcases List.mem_cons.mp hop with ho | ho
        · rw [heq] at ho; exact Op.noConfusion ho
        · simp only [List.mem_singleton] at ho
          rw [heq] at ho; exact Op.noConfusion ho
      have hshapeP' : tr1 = [] ∨ (∃ b, b ≠ [] ∧
          ((pipeMaxTs b = none ∧ tr1 = [Op.appendPipelines b]) ∨
           (∃ m, pipeMaxTs b = some m ∧
             tr1 = [Op.appendPipelines b, Op.setWatermark "pipelines" m]))) := by
        rcases hshapeP with ⟨_, h0⟩ | ⟨b, _, hb, hc⟩
        · exact Or.inl h0
        · exact Or.inr ⟨b, hb, hc⟩
      have hshapeJ' : tr2 = [] ∨ (∃ b, b ≠ [] ∧
          ((jobsMaxTs b = none ∧ tr2 = [Op.appendJobs b]) ∨
           (∃ m, jobsMaxTs b = some m ∧
             tr2 = [Op.appendJobs b, Op.setWatermark "jobs" m]))) := by
        rcases hshapeJ with ⟨_, h0⟩ | ⟨b, _, hb, hc⟩
        · exact Or.inl h0
        · exact Or.inr ⟨b, hb, hc⟩
      refine ⟨?_, ?_, ?_, ?_⟩
      · refine pipelines_ordering_of_shape tr1 _ hshapeP' ?_
        intro op hop ts
        rcases List.mem_append.mp hop with ho | ho
        · exact hnoP2 op ho ts
        · exact hnoTail op ho "pipelines" ts
      · exact jobs_ordering_of_shape tr1 tr2 _ hnoJ1
          (fun op hop ts => hnoTail op hop "jobs" ts) hshapeJ'
      · intro hempty i ts heq
        have htr1 : tr1 = [] := by
          rcases hshapeP with ⟨_, h0⟩ | ⟨b, hbeq, hb, _⟩
          · exact h0
          · exact absurd (hbeq ▸ hempty) hb
        subst htr1
        have hmem := List.getElem?_mem heq
        simp only [List.nil_append] at hmem
        rcases List.mem_append.mp hmem with ho | ho
        · exact hnoP2 _ ho ts rfl
        · exact hnoTail _ ho "pipelines" ts rfl
      · intro hempty i ts heq
        have htr2 : tr2 = [] := by
          rcases hshapeJ with ⟨_, h0⟩ | ⟨b, hbeq, hb, _⟩
          · exact h0
          · rw [hwmo, hempty] at hbeq
            exact absurd hbeq.symm hb
        subst htr2
        have hmem := List.getElem?_mem heq
        rcases List.mem_append.mp hmem with ho | ho
        · exact hnoJ1 _ ho ts rfl
        · simp only [List.nil_append] at ho
          exact hnoTail _ ho "jobs" ts rfl

end PipelineInsights

namespace PipelineInsights

/-- Operation trace of the concrete C6 witness run. -/
def c6trace : List Op :=
  [Op.appendPipelines [c3pev], Op.setWatermark "pipelines" 300,
   Op.appendJobs [c3jev], Op.setWatermark "jobs" 200,
   Op.computeMetrics 3, Op.buildFeats 30 1]

theorem watermark_write_ordering_witness :
    (∀ (i : Nat) (ts : Int), c6trace[i]? = some (Op.setWatermark "pipelines" ts) →
      ∃ (j : Nat) (b : List PipelineEvent), j < i ∧
        c6trace[j]? = some (Op.appendPipelines b) ∧ b ≠ [] ∧ pipeMaxTs b = some ts) ∧
    (∀ (i : Nat) (ts : Int), c6trace[i]? = some (Op.setWatermark "jobs" ts) →
      ∃ (j : Nat) (b : List RawJobEvent), j < i ∧
        c6trace[j]? = some (Op.appendJobs b) ∧ b ≠ [] ∧ jobsMaxTs b = some ts) ∧
    (loadNewPipelines (wmGet c3state0.watermarks "pipelines") [c3pev] = [] →
      ∀ (i : Nat) (ts : Int), ¬ c6trace[i]? = some (Op.setWatermark "pipelines" ts)) ∧
    (loadNewJobs (wmGet c3state0.watermarks "jobs") [c3jev] = [] →
      ∀ (i : Nat) (ts : Int), ¬ c6trace[i]? = some (Op.setWatermark "jobs" ts)) :=
  watermark_write_ordering 9 0 3 1 [c3pev] [c3jev] c3state0 c3state1 c6trace
    (by decide)

end PipelineInsights
